import Mathlib

/-
  Verification development for the ymmv differential DNS comparator
  (packages `ymmv` and `dnsstub`).

  The Go source is shallowly embedded: strings are `List Char`, byte
  streams are `List Nat` (each entry < 256 where it matters), parsed DNS
  messages are explicit structures, and the report produced by
  `compare_resp` is a list of report lines, one constructor per
  `fmt.Sprintf` call of the source, carrying that call's arguments.
  External library calls (SHA-256, the miekg/dns codec, the network) are
  modelled as explicit function parameters or abstract outcome values.
-/

namespace Ymmv

/-! ## Basic string helpers (models of the Go `strings` operations used) -/

/-- Model of `strings.ToLower` restricted to per-character lowering
(domain names are ASCII, where this coincides with Go's behaviour). -/
def toLowerStr (s : List Char) : List Char := s.map Char.toLower

/-- Model of the `[]byte(s)` conversion; coincides with UTF-8 on the
ASCII strings that occur as DNS presentation names. -/
def bytesOfChars (s : List Char) : List Nat := s.map Char.toNat

/-- Split a string at every dot, keeping empty fields.  Auxiliary for
`fieldsFunc`. -/
def splitOnDot : List Char → List (List Char)
  | [] => [[]]
  | c :: cs =>
    if c = '.' then [] :: splitOnDot cs
    else
      match splitOnDot cs with
      | [] => [[c]]
      | f :: rest => (c :: f) :: rest

/-- Model of `strings.FieldsFunc(s, r == '.')`: split at dots and drop
empty fields. -/
def fieldsFunc (s : List Char) : List (List Char) :=
  (splitOnDot s).filter (fun l => !l.isEmpty)

/-- Model of `strings.Join(ls, ".")`. -/
def joinDots : List (List Char) → List Char
  | [] => []
  | [l] => l
  | l :: m :: ls => l ++ '.' :: joinDots (m :: ls)

/-- Lowercase hex digit of a value < 16. -/
def hexDigit (n : Nat) : Char := if n < 10 then Char.ofNat (48 + n) else Char.ofNat (87 + n)

/-- Model of `hex.Encode`: lowercase hex, two digits per byte. -/
def hexEncode : List Nat → List Char
  | [] => []
  | b :: bs => hexDigit ((b % 256) / 16) :: hexDigit (b % 16) :: hexEncode bs

/-! ## C1: the obfuscator (`obfuscate_query`, src/ymmv/ymmv.go:602) -/

/-- Shallow embedding of `obfuscate_query`.  The SHA-256 call of the Go
source is an external library call (`crypto/sha256`); it enters the
embedding as the function parameter `sha256`.  The process-global secret
is likewise passed explicitly. -/
def obfuscate_query (sha256 : List Nat → List Nat) (secret : List Nat)
    (qname_in : List Char) : List Char :=
  let labels := fieldsFunc qname_in
  if labels.length < 2 then
    toLowerStr (joinDots labels) ++ ['.']
  else
    let hash_input := secret ++ bytesOfChars (toLowerStr (joinDots labels))
    let hashed := sha256 hash_input
    let hashed_hex := hexEncode hashed
    "ymmv.".toList ++ hashed_hex.take 16 ++ '.' ::
      (toLowerStr (joinDots (labels.drop (labels.length - 1))) ++ ['.'])

/-- The input name with a final dot removed, as the spec phrases it. -/
def stripTrailingDot (s : List Char) : List Char :=
  if s.getLast? = some '.' then s.dropLast else s

/-- Make a name fully qualified (append a final dot if absent). -/
def mkFQDN (s : List Char) : List Char :=
  if s.getLast? = some '.' then s else s ++ ['.']

theorem splitOnDot_ne_nil (s : List Char) : splitOnDot s ≠ [] := by
  cases s with
  | nil => simp [splitOnDot]
  | cons c cs =>
    by_cases hc : c = '.'
    · simp [splitOnDot, hc]
    · simp only [splitOnDot, if_neg hc]
      rcases hsp : splitOnDot cs with _ | ⟨f, rest⟩ <;> simp

theorem splitOnDot_dotless_append (l s : List Char) (hl : ∀ c ∈ l, c ≠ '.')
    (f : List Char) (rest : List (List Char)) (hs : splitOnDot s = f :: rest) :
    splitOnDot (l ++ s) = (l ++ f) :: rest := by
  induction l with
  | nil => simpa using hs
  | cons c cl ih =>
    have hc : c ≠ '.' := hl c (by simp)
    have ih' := ih (fun c hc => hl c (by simp [hc]))
    simp only [List.cons_append, splitOnDot, if_neg hc, List.append_eq, ih']

theorem splitOnDot_joinDots_dot (ls : List (List Char)) (hne : ls ≠ [])
    (hwf : ∀ l ∈ ls, l ≠ [] ∧ ∀ c ∈ l, c ≠ '.') :
    splitOnDot (joinDots ls ++ ['.']) = ls ++ [[]] := by
  induction ls with
  | nil => exact absurd rfl hne
  | cons l tl ih =>
    cases tl with
    | nil =>
      have : splitOnDot ['.'] = ([] : List Char) :: [[]] := by decide
      have h := splitOnDot_dotless_append l ['.'] (hwf l (by simp)).2 [] [[]] this
      simpa [joinDots] using h
    | cons m tl' =>
      have hrec := ih (by simp) (fun x hx => hwf x (by simp [hx]))
      have hdot : splitOnDot ('.' :: (joinDots (m :: tl') ++ ['.'])) =
          ([] : List Char) :: (m :: tl' ++ [[]]) := by
        simp [splitOnDot, hrec]
      have h := splitOnDot_dotless_append l ('.' :: (joinDots (m :: tl') ++ ['.']))
        (hwf l (by simp)).2 [] (m :: tl' ++ [[]]) hdot
      simpa [joinDots] using h

theorem splitOnDot_joinDots (ls : List (List Char)) (hne : ls ≠ [])
    (hwf : ∀ l ∈ ls, l ≠ [] ∧ ∀ c ∈ l, c ≠ '.') :
    splitOnDot (joinDots ls) = ls := by
  induction ls with
  | nil => exact absurd rfl hne
  | cons l tl ih =>
    cases tl with
    | nil =>
      have h := splitOnDot_dotless_append l [] (hwf l (by simp)).2 [] []
        (by simp [splitOnDot])
      simpa [joinDots] using h
    | cons m tl' =>
      have hrec := ih (by simp) (fun x hx => hwf x (by simp [hx]))
      have hdot : splitOnDot ('.' :: joinDots (m :: tl')) =
          ([] : List Char) :: (m :: tl') := by
        simp [splitOnDot, hrec]
      have h := splitOnDot_dotless_append l ('.' :: joinDots (m :: tl'))
        (hwf l (by simp)).2 [] (m :: tl') hdot
      simpa [joinDots] using h

theorem fieldsFunc_joinDots_dot (ls : List (List Char))
    (hwf : ∀ l ∈ ls, l ≠ [] ∧ ∀ c ∈ l, c ≠ '.') :
    fieldsFunc (joinDots ls ++ ['.']) = ls := by
  cases ls with
  | nil => decide
  | cons l tl =>
    have h := splitOnDot_joinDots_dot (l :: tl) (by simp) hwf
    unfold fieldsFunc
    rw [h, List.filter_append]
    have h1 : List.filter (fun l => !l.isEmpty) (l :: tl) = l :: tl := by
      apply List.filter_eq_self.mpr
      intro a ha
      have := (hwf a ha).1
      simpa [List.isEmpty_iff] using this
    simp [h1]

theorem fieldsFunc_joinDots (ls : List (List Char))
    (hwf : ∀ l ∈ ls, l ≠ [] ∧ ∀ c ∈ l, c ≠ '.') :
    fieldsFunc (joinDots ls) = ls := by
  cases ls with
  | nil => decide
  | cons l tl =>
    have h := splitOnDot_joinDots (l :: tl) (by simp) hwf
    unfold fieldsFunc
    rw [h]
    apply List.filter_eq_self.mpr
    intro a ha
    have := (hwf a ha).1
    simpa [List.isEmpty_iff] using this

theorem hexEncode_take (k : Nat) (bs : List Nat) :
    (hexEncode bs).take (2 * k) = hexEncode (bs.take k) := by
  induction bs generalizing k with
  | nil => simp [hexEncode]
  | cons b bs ih =>
    cases k with
    | zero => simp [hexEncode]
    | succ k =>
      have : 2 * (k + 1) = (2 * k) + 1 + 1 := by omega
      simp [hexEncode, this, List.take_succ_cons, ih]

theorem mem_of_getLast?_eq {α : Type} {l : List α} {a : α}
    (h : l.getLast? = some a) : a ∈ l := by
  obtain ⟨hne, heq⟩ := List.mem_getLast?_eq_getLast (show a ∈ l.getLast? from h)
  rw [heq]
  exact List.getLast_mem hne

theorem joinDots_ne_nil (ls : List (List Char)) (hne : ls ≠ [])
    (hwf : ∀ l ∈ ls, l ≠ [] ∧ ∀ c ∈ l, c ≠ '.') : joinDots ls ≠ [] := by
  cases ls with
  | nil => exact absurd rfl hne
  | cons l tl =>
    cases tl with
    | nil => simpa [joinDots] using (hwf l (by simp)).1
    | cons m tl' =>
      have : l ≠ [] := (hwf l (by simp)).1
      simp only [joinDots]
      intro h
      rcases List.append_eq_nil.mp h with ⟨h1, _⟩
      exact absurd h1 this

theorem joinDots_getLast?_ne_dot (ls : List (List Char)) (hne : ls ≠ [])
    (hwf : ∀ l ∈ ls, l ≠ [] ∧ ∀ c ∈ l, c ≠ '.') :
    (joinDots ls).getLast? ≠ some '.' := by
  induction ls with
  | nil => exact absurd rfl hne
  | cons l tl ih =>
    cases tl with
    | nil =>
      simp only [joinDots]
      intro h
      exact (hwf l (by simp)).2 '.' (mem_of_getLast?_eq h) rfl
    | cons m tl' =>
      have hwf' : ∀ x ∈ m :: tl', x ≠ [] ∧ ∀ c ∈ x, c ≠ '.' :=
        fun x hx => hwf x (by simp [hx])
      have hrec := ih (by simp) hwf'
      have hjd : joinDots (m :: tl') ≠ [] := joinDots_ne_nil _ (by simp) hwf'
      simp only [joinDots]
      rw [@List.getLast?_append_of_ne_nil _ l ('.' :: joinDots (m :: tl')) (by simp)]
      rw [show ('.' :: joinDots (m :: tl')) = ['.'] ++ joinDots (m :: tl') from rfl]
      rw [List.getLast?_append_of_ne_nil ['.'] hjd]
      exact hrec

theorem stripTrailingDot_joinDots_dot (ls : List (List Char)) :
    stripTrailingDot (joinDots ls ++ ['.']) = joinDots ls := by
  unfold stripTrailingDot
  rw [if_pos (by simp)]
  simp

theorem drop_length_sub_one {α : Type} (ls : List α) (hne : ls ≠ []) (d : α) :
    ls.drop (ls.length - 1) = [ls.getLastD d] := by
  induction ls generalizing d with
  | nil => exact absurd rfl hne
  | cons x tl ih =>
    cases tl with
    | nil => simp
    | cons y tl' =>
      have h := ih (by simp) x
      have hlen : (x :: y :: tl').length - 1 = tl'.length + 1 := by simp
      have hlen2 : (y :: tl').length - 1 = tl'.length := by simp
      rw [hlen, List.getLastD_cons, List.drop_succ_cons, ← hlen2, h]

/-- C1: with at least two labels, `obfuscate_query` returns
`ymmv.<h>.<tld>.` where `<h>` is the lowercase hex of the first 8 bytes
of SHA-256 of the secret followed by the lowercased input name without
its trailing dot, and `<tld>` is the lowercased rightmost input label;
with fewer than two labels it returns the input lowercased and fully
qualified, otherwise unchanged.  The input is a well-formed question
name given by its label decomposition `ls` (each label nonempty and
dotless), with or without a trailing root dot. -/
theorem obfuscate_query_spec
    (sha256 : List Nat → List Nat) (secret : List Nat)
    (s : List Char) (ls : List (List Char))
    (hwf : ∀ l ∈ ls, l ≠ [] ∧ ∀ c ∈ l, c ≠ '.')
    (hs : s = joinDots ls ++ ['.'] ∨ s = joinDots ls) :
    (2 ≤ ls.length →
      obfuscate_query sha256 secret s =
        "ymmv.".toList
          ++ hexEncode ((sha256 (secret ++ bytesOfChars (toLowerStr (stripTrailingDot s)))).take 8)
          ++ '.' :: (toLowerStr (ls.getLastD []) ++ ['.']))
    ∧ (ls.length < 2 →
      obfuscate_query sha256 secret s = toLowerStr (mkFQDN s)) := by
  have hfields : fieldsFunc s = ls := by
    rcases hs with h | h
    · rw [h]; exact fieldsFunc_joinDots_dot ls hwf
    · rw [h]; exact fieldsFunc_joinDots ls hwf
  have hstrip : stripTrailingDot s = joinDots ls ∨ ls = [] := by
    rcases hs with h | h
    · left; rw [h]; exact stripTrailingDot_joinDots_dot ls
    · rcases List.eq_nil_or_concat ls with hnil | _
      · right; exact hnil
      · left
        rw [h]
        unfold stripTrailingDot
        rw [if_neg]
        intro hd
        exact joinDots_getLast?_ne_dot ls (by rintro rfl; simp [joinDots] at hd) hwf hd
  constructor
  · intro hlen
    have hne : ls ≠ [] := by
      intro h; rw [h] at hlen; simp at hlen
    have hstrip' : stripTrailingDot s = joinDots ls := by
      rcases hstrip with h | h
      · exact h
      · exact absurd h hne
    have htake : (hexEncode (sha256 (secret ++ bytesOfChars (toLowerStr (joinDots ls))))).take 16
        = hexEncode ((sha256 (secret ++ bytesOfChars (toLowerStr (joinDots ls)))).take 8) := by
      have := hexEncode_take 8 (sha256 (secret ++ bytesOfChars (toLowerStr (joinDots ls))))
      simpa using this
    have hlen2 : ¬ ls.length < 2 := by omega
    simp only [obfuscate_query, hfields, if_neg hlen2]
    rw [drop_length_sub_one ls hne [], hstrip']
    simp [joinDots, htake]
  · intro hlen
    simp only [obfuscate_query, hfields, if_pos hlen]
    have hdotlower : Char.toLower '.' = '.' := by decide
    interval_cases h : ls.length
    · have hls : ls = [] := List.length_eq_zero.mp h
      subst hls
      rcases hs with h | h <;> rw [h]
      · simp [joinDots, mkFQDN, toLowerStr, hdotlower]
      · simp [joinDots, mkFQDN, toLowerStr]
    · obtain ⟨l, hls⟩ : ∃ l, ls = [l] := by
        cases ls with
        | nil => simp at h
        | cons a tl =>
          cases tl with
          | nil => exact ⟨a, rfl⟩
          | cons b tl' => simp at h
      subst hls
      have hl : l ≠ [] := (hwf l (by simp)).1
      rcases hs with h | h <;> rw [h]
      · unfold mkFQDN
        rw [if_pos (by simp [joinDots])]
        simp [joinDots, toLowerStr, hdotlower]
      · unfold mkFQDN
        rw [if_neg]
        · simp [joinDots, toLowerStr, hdotlower]
        · simp only [joinDots]
          intro hd
          exact (hwf l (by simp)).2 '.' (mem_of_getLast?_eq hd) rfl

/-- Witness for `obfuscate_query_spec` at the concrete name
`Foo.Bar.example.NET.` with a concrete stand-in hash function. -/
theorem obfuscate_query_spec_witness :
    obfuscate_query (fun bs => bs ++ List.range 32) [7, 8]
        "Foo.Bar.example.NET.".toList =
      "ymmv.".toList
        ++ hexEncode (((fun bs => bs ++ List.range 32)
              ([7, 8] ++ bytesOfChars (toLowerStr (stripTrailingDot "Foo.Bar.example.NET.".toList)))).take 8)
        ++ '.' :: (toLowerStr (["Foo".toList, "Bar".toList, "example".toList, "NET".toList].getLastD []) ++ ['.']) :=
  (obfuscate_query_spec (fun bs => bs ++ List.range 32) [7, 8]
    "Foo.Bar.example.NET.".toList
    ["Foo".toList, "Bar".toList, "example".toList, "NET".toList]
    (by decide) (by decide)).1 (by decide)

/-! ## Go string comparison -/

/-- Model of Go's `<` on strings: lexicographic on the code units (for
the ASCII data at hand, bytewise and codepoint-wise order agree). -/
def strLt : List Char → List Char → Bool
  | [], [] => false
  | [], _ :: _ => true
  | _ :: _, [] => false
  | c :: cs, d :: ds =>
    if c.toNat < d.toNat then true
    else if d.toNat < c.toNat then false
    else strLt cs ds

theorem strLt_irrefl : ∀ s, strLt s s = false
  | [] => rfl
  | c :: cs => by simp [strLt, strLt_irrefl cs]

theorem strLt_asymm : ∀ s t, strLt s t = true → strLt t s = false
  | [], [] => by simp [strLt]
  | [], _ :: _ => by simp [strLt]
  | _ :: _, [] => by simp [strLt]
  | c :: cs, d :: ds => by
    simp only [strLt]
    by_cases h1 : c.toNat < d.toNat
    · simp [h1, show ¬ d.toNat < c.toNat by omega]
    · by_cases h2 : d.toNat < c.toNat
      · simp [h1, h2]
      · simp [h1, h2]
        exact strLt_asymm cs ds

theorem strLt_trans : ∀ s t u, strLt s t = true → strLt t u = true → strLt s u = true
  | [], [], _ :: _, _, _ => rfl
  | [], _ :: _, _ :: _, _, _ => rfl
  | c :: cs, d :: ds, e :: es, h1, h2 => by
    simp only [strLt] at h1 h2 ⊢
    by_cases hcd : c.toNat < d.toNat
    · by_cases hde : d.toNat < e.toNat
      · simp [show c.toNat < e.toNat by omega]
      · by_cases hed : e.toNat < d.toNat
        · simp [hde, hed] at h2
        · have : d.toNat = e.toNat := by omega
          simp [show c.toNat < e.toNat by omega]
    · by_cases hdc : d.toNat < c.toNat
      · simp [hcd, hdc] at h1
      · have hcdeq : c.toNat = d.toNat := by omega
        by_cases hde : d.toNat < e.toNat
        · simp [show c.toNat < e.toNat by omega]
        · by_cases hed : e.toNat < d.toNat
          · simp [hde, hed] at h2
          · simp [hcd, hdc] at h1
            simp [hde, hed] at h2
            have h3 : ¬ c.toNat < e.toNat := by omega
            have h4 : ¬ e.toNat < c.toNat := by omega
            simp [h3, h4]
            exact strLt_trans cs ds es h1 h2
  | [], [], [], h1, _ => by simp [strLt] at h1
  | _ :: _, [], _, h1, _ => by simp [strLt] at h1
  | [], _ :: _, [], _, h2 => by simp [strLt] at h2
  | _ :: _, _ :: _, [], _, h2 => by simp [strLt] at h2

theorem strLt_antisymm : ∀ s t, strLt s t = false → strLt t s = false → s = t
  | [], [] => fun _ _ => rfl
  | [], _ :: _ => by simp [strLt]
  | _ :: _, [] => by simp [strLt]
  | c :: cs, d :: ds => by
    simp only [strLt]
    by_cases h1 : c.toNat < d.toNat
    · simp [h1]
    · by_cases h2 : d.toNat < c.toNat
      · simp [h1, h2]
      · simp [h1, h2]
        intro h3 h4
        have hval : c.toNat = d.toNat := by omega
        have hc : c = d := by
          apply Char.eq_of_val_eq
          exact UInt32.toNat.inj hval
        exact ⟨hc, strLt_antisymm cs ds h3 h4⟩

/-! ## Resource-record model

The miekg/dns record types are external to this repository; the source
accesses only the shared header (owner name, numeric type, class, TTL),
the SOA-specific fields, and the textual presentation given by the
library's `String()` method.  The embedding therefore carries the header
plus either the SOA field set or the (opaque) rdata text, and derives a
presentation string in the library's `name\tttl\tclass\ttype\trdata`
shape. -/

/-- The fields of `dns.RR_Header` that the source reads. -/
structure RRHeader where
  name : List Char
  rrtype : Nat
  class_ : Nat
  ttl : Nat
deriving DecidableEq, Repr

/-- The fields of `dns.SOA` beyond the header. -/
structure SOAData where
  ns : List Char
  mbox : List Char
  serial : Nat
  refresh : Nat
  retry_ : Nat
  expire : Nat
  minttl : Nat
deriving DecidableEq, Repr

/-- Rdata: the SOA fields when the record is an SOA, an opaque
presentation text otherwise. -/
inductive RData where
  | soa (d : SOAData)
  | generic (text : List Char)
deriving DecidableEq, Repr

structure RR where
  header : RRHeader
  rdata : RData
deriving DecidableEq, Repr

/-- Numeric record types used by the source. -/
def TypeNS : Nat := 2
def TypeCNAME : Nat := 5
def TypeSOA : Nat := 6
def TypePTR : Nat := 12
def TypeMX : Nat := 15
def TypeSRV : Nat := 33
def TypeNAPTR : Nat := 35
def TypeDNAME : Nat := 39
def TypeOPT : Nat := 41
def TypeRRSIG : Nat := 46

/-- Presentation token for a record type (model of `dns.TypeToString`). -/
def typeToString (t : Nat) : List Char :=
  if t = 1 then "A".toList
  else if t = TypeNS then "NS".toList
  else if t = TypeCNAME then "CNAME".toList
  else if t = TypeSOA then "SOA".toList
  else if t = TypePTR then "PTR".toList
  else if t = TypeMX then "MX".toList
  else if t = 16 then "TXT".toList
  else if t = 28 then "AAAA".toList
  else if t = TypeSRV then "SRV".toList
  else if t = TypeNAPTR then "NAPTR".toList
  else if t = TypeDNAME then "DNAME".toList
  else if t = TypeOPT then "OPT".toList
  else if t = TypeRRSIG then "RRSIG".toList
  else "TYPE".toList ++ Nat.toDigits 10 t

/-- Presentation token for a record class. -/
def classToString (c : Nat) : List Char :=
  if c = 1 then "IN".toList else "CLASS".toList ++ Nat.toDigits 10 c

/-- Model of `dns.RR_Header.String()`. -/
def headerText (h : RRHeader) : List Char :=
  h.name ++ '\t' :: (Nat.toDigits 10 h.ttl ++ '\t' :: (classToString h.class_
    ++ '\t' :: (typeToString h.rrtype ++ ['\t'])))

/-- Model of the rdata part of `dns.SOA.String()`. -/
def soaText (d : SOAData) : List Char :=
  d.ns ++ ' ' :: (d.mbox ++ ' ' :: (Nat.toDigits 10 d.serial ++ ' ' ::
    (Nat.toDigits 10 d.refresh ++ ' ' :: (Nat.toDigits 10 d.retry_ ++ ' ' ::
    (Nat.toDigits 10 d.expire ++ ' ' :: Nat.toDigits 10 d.minttl)))))

/-- Model of the full `rr.String()` presentation. -/
def rrString (rr : RR) : List Char :=
  headerText rr.header ++
    (match rr.rdata with
     | .soa d => soaText d
     | .generic t => t)

/-! ## C2: the RR ordering (`rr_sort.Less`, src/ymmv/ymmv.go:229) -/

/-- The record types whose textual form the comparator lowercases. -/
def caseInsensitiveType (t : Nat) : Bool :=
  t == TypeNS || t == TypeCNAME || t == TypeSOA || t == TypePTR ||
  t == TypeMX || t == TypeSRV || t == TypeNAPTR || t == TypeDNAME

/-- Shallow embedding of `rr_sort.Less` applied to two records.  Note
the source computes `j_name` from `a[i]`, not `a[j]`; the embedding
reproduces this faithfully. -/
def rr_sort_less (x y : RR) : Bool :=
  let i_name := toLowerStr x.header.name
  let j_name := toLowerStr x.header.name
  if strLt i_name j_name then true
  else if strLt j_name i_name then false
  else if x.header.rrtype < y.header.rrtype then true
  else if y.header.rrtype < x.header.rrtype then false
  else if x.header.ttl < y.header.ttl then true
  else if y.header.ttl < x.header.ttl then false
  else
    let ci := caseInsensitiveType x.header.rrtype
    let i_str := if ci then toLowerStr (rrString x) else rrString x
    let j_str := if ci then toLowerStr (rrString y) else rrString y
    strLt i_str j_str

/-- The ordering as the claim states it: the owner-name comparison uses
the owner name of the left element against that of the right element. -/
def rr_claim_less (x y : RR) : Bool :=
  let i_name := toLowerStr x.header.name
  let j_name := toLowerStr y.header.name
  if strLt i_name j_name then true
  else if strLt j_name i_name then false
  else if x.header.rrtype < y.header.rrtype then true
  else if y.header.rrtype < x.header.rrtype then false
  else if x.header.ttl < y.header.ttl then true
  else if y.header.ttl < x.header.ttl then false
  else
    let ci := caseInsensitiveType x.header.rrtype
    let i_str := if ci then toLowerStr (rrString x) else rrString x
    let j_str := if ci then toLowerStr (rrString y) else rrString y
    strLt i_str j_str

/-- The textual form actually compared: lowercased exactly for the
case-insensitive record types. -/
def adjustedText (x : RR) : List Char :=
  if caseInsensitiveType x.header.rrtype then toLowerStr (rrString x) else rrString x

/-- The ordering the source actually implements: the owner-name
comparison is degenerate (it compares the left name with itself), so
records are ordered by numeric type, then TTL, then adjusted text. -/
def rr_amended_less (x y : RR) : Bool :=
  if x.header.rrtype < y.header.rrtype then true
  else if y.header.rrtype < x.header.rrtype then false
  else if x.header.ttl < y.header.ttl then true
  else if y.header.ttl < x.header.ttl then false
  else strLt (adjustedText x) (adjustedText y)

/-- C2 counterexample: the comparator does not order by owner names as
the claim states; a pair with owner names in one order and numeric types
in the other distinguishes the source comparator from the claimed one. -/
theorem rr_sort_less_claim_counterexample :
    rr_sort_less
        ⟨⟨"b.".toList, 1, 1, 0⟩, .generic "x".toList⟩
        ⟨⟨"a.".toList, 2, 1, 0⟩, .generic "x".toList⟩ ≠
      rr_claim_less
        ⟨⟨"b.".toList, 1, 1, 0⟩, .generic "x".toList⟩
        ⟨⟨"a.".toList, 2, 1, 0⟩, .generic "x".toList⟩ := by decide

/-- C2 amended: the owner-name step of `rr_sort.Less` compares the left
element's lowercased name with itself and therefore never decides; the
order implemented is: numeric type, then TTL, then textual form,
lowercased exactly for NS, CNAME, SOA, PTR, MX, SRV, NAPTR and DNAME.
No separate class comparison is performed (class reaches the comparison
only through the textual form). -/
theorem rr_sort_less_amended (x y : RR) :
    rr_sort_less x y = rr_amended_less x y := by
  unfold rr_sort_less rr_amended_less adjustedText
  simp only [strLt_irrefl, if_false, Bool.false_eq_true]
  by_cases h1 : x.header.rrtype < y.header.rrtype
  · simp [h1]
  · by_cases h2 : y.header.rrtype < x.header.rrtype
    · simp [h1, h2]
    · have heq : x.header.rrtype = y.header.rrtype := by omega
      simp [h1, h2, heq]

/-! ## Sorting (`sort.Sort(rr_sort(...))`)

Go's `sort.Sort` produces some permutation consistent with `Less`; it is
modelled by a deterministic (stable) insertion sort over the non-strict
order derived from `rr_sort_less`. -/

/-- Non-strict order derived from the comparator. -/
def rrLE (x y : RR) : Bool := ! rr_sort_less y x

def orderedInsertRR (x : RR) : List RR → List RR
  | [] => [x]
  | y :: ys => if rrLE x y then x :: y :: ys else y :: orderedInsertRR x ys

def sortRRs : List RR → List RR
  | [] => []
  | x :: xs => orderedInsertRR x (sortRRs xs)

/-! ## The message and report model -/

structure Question where
  name : List Char
  qtype : Nat
deriving DecidableEq, Repr

/-- The fields of `dns.Msg` that `compare_resp` reads. -/
structure Msg where
  response : Bool
  opcode : Nat
  authoritative : Bool
  truncated : Bool
  recursionDesired : Bool
  recursionAvailable : Bool
  authenticatedData : Bool
  checkingDisabled : Bool
  rcode : Nat
  question : List Question
  answer : List RR
  ns : List RR
  extra : List RR
deriving DecidableEq, Repr

/-- One report line per `fmt.Sprintf` call of the source, carrying the
interpolated data. -/
inductive Line where
  | skipping
  | respFlag (i y : Bool)
  | opcodeLine (i y : Nat)
  | aaFlag (i y : Bool)
  | rdFlag (i y : Bool)
  | raFlag (i y : Bool)
  | adFlag (i y : Bool)
  | rcodeLine (i y : Nat)
  | answerIana
  | answerYeti
  | authorityIana
  | authorityYeti
  | additionalIana
  | additionalYeti
  | rrText (s : List Char)
  | soaOnlyIana (s : List Char)
  | soaOnlyYeti (s : List Char)
  | soaSerial (i y : Nat)
  | soaRefresh (i y : Nat)
  | soaRetry (i y : Nat)
  | soaExpire (i y : Nat)
  | soaMinttl (i y : Nat)
deriving DecidableEq, Repr

/-- Go runtime panics that the embedding surfaces as errors. -/
inductive GoPanic where
  | indexOutOfRange
deriving DecidableEq, Repr

instance exceptDecEq {ε α : Type} [DecidableEq ε] [DecidableEq α] :
    DecidableEq (Except ε α) := fun a b =>
  match a, b with
  | .error e, .error e' =>
    if h : e = e' then isTrue (h ▸ rfl) else isFalse (fun hc => h (Except.error.inj hc))
  | .ok v, .ok v' =>
    if h : v = v' then isTrue (h ▸ rfl) else isFalse (fun hc => h (Except.ok.inj hc))
  | .error _, .ok _ => isFalse (fun hc => Except.noConfusion hc)
  | .ok _, .error _ => isFalse (fun hc => Except.noConfusion hc)

/-! ## Section comparison (`compare_section`, src/ymmv/ymmv.go:351) -/

/-- A root SOA record: type SOA with owner name the root. -/
def isRootSOA (rr : RR) : Bool :=
  rr.header.rrtype == TypeSOA && rr.header.name == ".".toList

/-- Records that participate in the Answer/Authority matching: neither
RRSIG nor a root SOA (both loops of the source skip exactly these). -/
def keptRR (rr : RR) : Bool :=
  !(rr.header.rrtype == TypeRRSIG) && !(isRootSOA rr)

/-- The case-insensitive matching key of the source's inner loop. -/
def matchText (rr : RR) : List Char := toLowerStr (rrString rr)

/-- Remove the first element with the same lowercased presentation (the
inner loop with its slice deletion). -/
def removeFirstMatch (x : RR) : List RR → Option (List RR)
  | [] => none
  | y :: ys =>
    if matchText x = matchText y then some ys
    else (removeFirstMatch x ys).map (fun ys' => y :: ys')

/-- The outer loop of `compare_section`: match each remaining reference
record against the shadow leftovers. -/
def scanIana : List RR → List RR → List RR × List RR
  | [], yonly => ([], yonly)
  | rr :: rest, yonly =>
    match removeFirstMatch rr yonly with
    | some yonly' => scanIana rest yonly'
    | none =>
      let r := scanIana rest yonly
      (rr :: r.1, r.2)

structure SectionResult where
  iana_only : List RR
  yeti_only : List RR
  iana_root_soa : Option RR
  yeti_root_soa : Option RR
deriving DecidableEq, Repr

/-- Shallow embedding of `compare_section`.  The source's first loop
builds `yeti_only` by dropping RRSIGs and extracting the last root SOA;
the second loop skips the same records on the reference side while
matching the rest: equivalently, both sides are filtered by `keptRR`,
the root-SOA outputs being the last root SOA of each input. -/
def compare_section (iana yeti : List RR) : SectionResult :=
  let scan := scanIana (iana.filter keptRR) (yeti.filter keptRR)
  ⟨scan.1, scan.2, (iana.filter isRootSOA).getLast?, (yeti.filter isRootSOA).getLast?⟩

/-! ## Additional-section comparison (`compare_additional`, src/ymmv/ymmv.go:322) -/

/-- `extract_rrset` lowercases each record's owner name in place. -/
def lowerName (rr : RR) : RR :=
  ⟨⟨toLowerStr rr.header.name, rr.header.rrtype, rr.header.class_, rr.header.ttl⟩, rr.rdata⟩

/-- The source's map key `%06d_` + lowered name, as the injective pair. -/
def rrKey (rr : RR) : Nat × List Char := (rr.header.rrtype, toLowerStr rr.header.name)

/-- Keys in order of first occurrence (a deterministic refinement of
Go's unspecified map iteration order). -/
def firstKeys : List (Nat × List Char) → List (Nat × List Char)
  | [] => []
  | k :: ks => k :: (firstKeys ks).filter (fun x => decide (x ≠ k))

/-- Shallow embedding of `extract_rrset`: group records by
(type, lowercased owner name), lowercase the stored names, sort each
group with the RR comparator. -/
def extract_rrset (rrs : List RR) : List ((Nat × List Char) × List RR) :=
  (firstKeys (rrs.map rrKey)).map
    (fun k => (k, sortRRs ((rrs.filter (fun rr => decide (rrKey rr = k))).map lowerName)))

def lookupKey (k : Nat × List Char) :
    List ((Nat × List Char) × List RR) → Option (List RR)
  | [] => none
  | e :: rest => if e.1 = k then some e.2 else lookupKey k rest

def defRR : RR := ⟨⟨[], 0, 0, 0⟩, .generic []⟩

/-- The loop of `compare_additional` over the reference RRsets: skip OPT
and RRSIG sets, compare sets present on both sides by deep equality. -/
def addlScan (ym : List ((Nat × List Char) × List RR)) :
    List ((Nat × List Char) × List RR) → List RR × List RR
  | [] => ([], [])
  | e :: rest =>
    let r := addlScan ym rest
    if (e.2.headD defRR).header.rrtype == TypeOPT then r
    else if (e.2.headD defRR).header.rrtype == TypeRRSIG then r
    else
      match lookupKey e.1 ym with
      | some yset => if decide (e.2 = yset) then r else (e.2 ++ r.1, yset ++ r.2)
      | none => r

/-- Shallow embedding of `compare_additional`. -/
def compare_additional (iana yeti : List RR) : List RR × List RR :=
  addlScan (extract_rrset yeti) (extract_rrset iana)

/-! ## Root-SOA comparison (`compare_soa`, src/ymmv/ymmv.go:414) -/

/-- The SOA fields of a record.  The source uses a Go type assertion,
which panics on a record whose header says SOA but whose value is not a
`dns.SOA`; parsed messages never contain such a record, and theorems
about messages carry the matching well-formedness hypothesis. -/
def soaFields (rr : RR) : SOAData :=
  match rr.rdata with
  | .soa d => d
  | .generic _ => ⟨[], [], 0, 0, 0, 0, 0⟩

/-- Shallow embedding of `compare_soa`.  The MNAME (`Ns`) and RNAME
(`Mbox`) comparisons are commented out in the source. -/
def compare_soa (isoa ysoa : Option RR) : List Line :=
  match isoa, ysoa with
  | none, none => []
  | none, some y => [.soaOnlyYeti (rrString y)]
  | some i, none => [.soaOnlyIana (rrString i)]
  | some i, some y =>
    let di := soaFields i
    let dy := soaFields y
    (if di.serial ≠ dy.serial then [.soaSerial di.serial dy.serial] else []) ++
    ((if di.refresh ≠ dy.refresh then [.soaRefresh di.refresh dy.refresh] else []) ++
    ((if di.retry_ ≠ dy.retry_ then [.soaRetry di.retry_ dy.retry_] else []) ++
    ((if di.expire ≠ dy.expire then [.soaExpire di.expire dy.expire] else []) ++
    (if di.minttl ≠ dy.minttl then [.soaMinttl di.minttl dy.minttl] else []))))

/-! ## Skip policy and response comparison (`skip_comparison`, `compare_resp`) -/

/-- Shallow embedding of the body of `skip_comparison`, applied to the
already-lowercased question name. -/
def skip_name (name : List Char) : Bool :=
  if name = ".".toList then true
  else if name = "id.server.".toList then true
  else if name = "hostname.bind.".toList then true
  else if ".root-servers.net.".toList.isSuffixOf name then true
  else if ".arpa.".toList.isSuffixOf name then true
  else false

/-- Header flag/field mismatch lines of `compare_resp` (the TC and CD
comparisons are absent and commented out respectively in the source). -/
def headerLines (iana yeti : Msg) : List Line :=
  (if iana.response ≠ yeti.response then [.respFlag iana.response yeti.response] else []) ++
  ((if iana.opcode ≠ yeti.opcode then [.opcodeLine iana.opcode yeti.opcode] else []) ++
  ((if iana.authoritative ≠ yeti.authoritative then
      [.aaFlag iana.authoritative yeti.authoritative] else []) ++
  ((if iana.recursionDesired ≠ yeti.recursionDesired then
      [.rdFlag iana.recursionDesired yeti.recursionDesired] else []) ++
  ((if iana.recursionAvailable ≠ yeti.recursionAvailable then
      [.raFlag iana.recursionAvailable yeti.recursionAvailable] else []) ++
  ((if iana.authenticatedData ≠ yeti.authenticatedData then
      [.adFlag iana.authenticatedData yeti.authenticatedData] else []) ++
  (if iana.rcode ≠ yeti.rcode then [.rcodeLine iana.rcode yeti.rcode] else []))))))

def rrLines (rrs : List RR) : List Line := rrs.map (fun rr => .rrText (rrString rr))

/-- The per-section mismatch block: a header line followed by the
records, for each non-empty side. -/
def sectionDiffLines (hi hy : Line) (io yo : List RR) : List Line :=
  (if io ≠ [] then hi :: rrLines io else []) ++
  (if yo ≠ [] then hy :: rrLines yo else [])

/-- Shallow embedding of `compare_resp`.  `skip_comparison` indexes
`Question[0]`, so an empty question section is a runtime panic. -/
def compare_resp (iana yeti : Msg) : Except GoPanic (List Line) :=
  match iana.question with
  | [] => .error .indexOutOfRange
  | q :: _ =>
    if skip_name (toLowerStr q.name) then .ok [.skipping]
    else
      let hdr := headerLines iana yeti
      let r1 := compare_section (sortRRs iana.answer) (sortRRs yeti.answer)
      let ans := sectionDiffLines .answerIana .answerYeti r1.iana_only r1.yeti_only
        ++ compare_soa r1.iana_root_soa r1.yeti_root_soa
      let r2 := compare_section (sortRRs iana.ns) (sortRRs yeti.ns)
      let auth := sectionDiffLines .authorityIana .authorityYeti r2.iana_only r2.yeti_only
        ++ compare_soa r2.iana_root_soa r2.yeti_root_soa
      let r3 := compare_additional (sortRRs iana.extra) (sortRRs yeti.extra)
      let addl := sectionDiffLines .additionalIana .additionalYeti r3.1 r3.2
      .ok (hdr ++ (ans ++ (auth ++ addl)))

/-! ## C9: the skip policy -/

theorem skipping_not_mem_headerLines (i y : Msg) :
    Line.skipping ∉ headerLines i y := by
  unfold headerLines
  simp only [List.mem_append]
  intro h
  rcases h with h | h | h | h | h | h | h <;> (revert h; split <;> simp)

theorem skipping_not_mem_sectionDiffLines (hi hy : Line)
    (hhi : hi ≠ Line.skipping) (hhy : hy ≠ Line.skipping) (io yo : List RR) :
    Line.skipping ∉ sectionDiffLines hi hy io yo := by
  unfold sectionDiffLines
  simp only [List.mem_append]
  intro h
  rcases h with h | h <;>
    (revert h; split <;> simp [rrLines, eq_comm, hhi, hhy, Ne.symm])

theorem skipping_not_mem_compare_soa (isoa ysoa : Option RR) :
    Line.skipping ∉ compare_soa isoa ysoa := by
  unfold compare_soa
  rcases isoa with _ | i <;> rcases ysoa with _ | y <;> simp only [List.mem_append]
  · simp
  · simp
  · simp
  · intro h
    rcases h with h | h | h | h | h <;> (revert h; split <;> simp)

/-- C9: if the lowercased question name is the root, `id.server.`,
`hostname.bind.`, or has suffix `.root-servers.net.` or `.arpa.`,
`compare_resp` returns exactly the single skipping line (for any shadow
response, so no header or section comparison takes place); otherwise no
skipping line occurs in the report. -/
theorem skip_policy_spec (iana yeti : Msg) (q : Question) (rest : List Question)
    (hq : iana.question = q :: rest) :
    ((toLowerStr q.name = ".".toList ∨ toLowerStr q.name = "id.server.".toList ∨
      toLowerStr q.name = "hostname.bind.".toList ∨
      ".root-servers.net.".toList.isSuffixOf (toLowerStr q.name) = true ∨
      ".arpa.".toList.isSuffixOf (toLowerStr q.name) = true) →
        compare_resp iana yeti = .ok [.skipping])
    ∧ (¬ (toLowerStr q.name = ".".toList ∨ toLowerStr q.name = "id.server.".toList ∨
      toLowerStr q.name = "hostname.bind.".toList ∨
      ".root-servers.net.".toList.isSuffixOf (toLowerStr q.name) = true ∨
      ".arpa.".toList.isSuffixOf (toLowerStr q.name) = true) →
        ∀ lines, compare_resp iana yeti = .ok lines → Line.skipping ∉ lines) := by
  have hiff : skip_name (toLowerStr q.name) = true ↔
      (toLowerStr q.name = ".".toList ∨ toLowerStr q.name = "id.server.".toList ∨
       toLowerStr q.name = "hostname.bind.".toList ∨
       ".root-servers.net.".toList.isSuffixOf (toLowerStr q.name) = true ∨
       ".arpa.".toList.isSuffixOf (toLowerStr q.name) = true) := by
    unfold skip_name
    split
    next h1 => exact iff_of_true rfl (Or.inl h1)
    next h1 =>
      split
      next h2 => exact iff_of_true rfl (Or.inr (Or.inl h2))
      next h2 =>
        split
        next h3 => exact iff_of_true rfl (Or.inr (Or.inr (Or.inl h3)))
        next h3 =>
          split
          next h4 => exact iff_of_true rfl (Or.inr (Or.inr (Or.inr (Or.inl h4))))
          next h4 =>
            split
            next h5 => exact iff_of_true rfl (Or.inr (Or.inr (Or.inr (Or.inr h5))))
            next h5 =>
              apply iff_of_false (by simp)
              rintro (h | h | h | h | h)
              exacts [h1 h, h2 h, h3 h, h4 h, h5 h]
  constructor
  · intro hcond
    unfold compare_resp
    rw [hq]
    dsimp only
    rw [if_pos (hiff.mpr hcond)]
  · intro hcond lines hres
    unfold compare_resp at hres
    rw [hq] at hres
    dsimp only at hres
    rw [if_neg (by rw [hiff]; exact hcond)] at hres
    simp only [Except.ok.injEq] at hres
    subst hres
    simp only [List.mem_append]
    intro h
    rcases h with h | (h | h) | (h | h) | h
    · exact skipping_not_mem_headerLines iana yeti h
    · exact skipping_not_mem_sectionDiffLines _ _ (by simp) (by simp) _ _ h
    · exact skipping_not_mem_compare_soa _ _ h
    · exact skipping_not_mem_sectionDiffLines _ _ (by simp) (by simp) _ _ h
    · exact skipping_not_mem_compare_soa _ _ h
    · exact skipping_not_mem_sectionDiffLines _ _ (by simp) (by simp) _ _ h

/-- Witness for `skip_policy_spec`: a concrete `id.server.` TXT query is
skipped, and a concrete `example.com.` query is not. -/
theorem skip_policy_spec_witness :
    compare_resp
        { response := true, opcode := 0, authoritative := true, truncated := false,
          recursionDesired := false, recursionAvailable := false,
          authenticatedData := false, checkingDisabled := false, rcode := 0,
          question := [⟨"ID.Server.".toList, 16⟩], answer := [], ns := [], extra := [] }
        { response := true, opcode := 0, authoritative := true, truncated := false,
          recursionDesired := false, recursionAvailable := false,
          authenticatedData := false, checkingDisabled := false, rcode := 5,
          question := [], answer := [], ns := [], extra := [] } = .ok [.skipping] :=
  (skip_policy_spec _ _ ⟨"ID.Server.".toList, 16⟩ [] rfl).1 (by decide)

/-! ## C5: the stub resolver (`DnsQuery`, src/dnsstub/dnsstub.go:48)

The two `dnsClient.Exchange` calls are external (network + codec); each
is modelled by an explicit outcome value: an optional response (rcode
and TC bit), a round-trip time, and an optional error, where the codec's
`dns.ErrTruncated` is a distinguished error value. -/

inductive NetErr where
  | truncated
  | other (code : Nat)
deriving DecidableEq, Repr

/-- The response fields `DnsQuery` reads. -/
structure RespInfo where
  rcode : Nat
  truncFlag : Bool
deriving DecidableEq, Repr

/-- Outcome of one `Exchange` call: `(r, rtt, err)`. -/
structure ExchRes where
  r : Option RespInfo
  rtt : Nat
  err : Option NetErr
deriving DecidableEq, Repr

/-- What `DnsQuery` returns (or a nil dereference if `Exchange` yields
an error response with no message). -/
inductive DnsQueryOut where
  | ok (r : Option RespInfo) (rtt : Nat)
  | fail (e : NetErr)
  | nilPanic
deriving DecidableEq, Repr

/-- The TCP leg: any error is returned as-is, otherwise the response. -/
def dnsQueryTcpLeg (tcp : ExchRes) : DnsQueryOut × Bool :=
  match tcp.err with
  | some e => (.fail e, true)
  | none => (.ok tcp.r tcp.rtt, true)

/-- After the UDP error filter: return the UDP response if it has
rcode SUCCESS and TC clear, otherwise retry over TCP. -/
def dnsQueryAfterUdp (udp tcp : ExchRes) : DnsQueryOut × Bool :=
  match udp.r with
  | none => (.nilPanic, false)
  | some r =>
    if r.rcode = 0 ∧ r.truncFlag = false then (.ok (some r) udp.rtt, false)
    else dnsQueryTcpLeg tcp

/-- Shallow embedding of `DnsQuery`; the second component records
whether the TCP retry was performed. -/
def DnsQuery (udp tcp : ExchRes) : DnsQueryOut × Bool :=
  match udp.err with
  | some e =>
    if e ≠ NetErr.truncated then (.fail e, false)
    else dnsQueryAfterUdp udp tcp
  | none => dnsQueryAfterUdp udp tcp

/-- C5 counterexample: a UDP exchange that returns a SERVFAIL response
(rcode 2) with TC clear and no error is retried over TCP, although it is
not a truncated response in any sense. -/
theorem dnsquery_tcp_retry_counterexample :
    (DnsQuery ⟨some ⟨2, false⟩, 5, none⟩ ⟨some ⟨2, false⟩, 7, none⟩).2 = true
    ∧ (⟨some ⟨2, false⟩, 5, none⟩ : ExchRes).err = none
    ∧ (⟨some ⟨2, false⟩, 5, none⟩ : ExchRes).r = some ⟨2, false⟩
    ∧ (⟨2, false⟩ : RespInfo).truncFlag = false := by decide

/-- C5 amended: `DnsQuery` retries over TCP exactly when the UDP
exchange yields no error or the truncation error, together with a
response that does not have both rcode SUCCESS and TC clear (so an
error rcode alone also triggers the retry); a UDP error other than
truncation is surfaced without any TCP retry. -/
theorem dnsquery_tcp_retry_amended (udp tcp : ExchRes) :
    ((DnsQuery udp tcp).2 = true ↔
      ((udp.err = none ∨ udp.err = some NetErr.truncated) ∧
        ∃ r, udp.r = some r ∧ ¬(r.rcode = 0 ∧ r.truncFlag = false)))
    ∧ (∀ e, udp.err = some e → e ≠ NetErr.truncated →
        DnsQuery udp tcp = (.fail e, false)) := by
  constructor
  · unfold DnsQuery dnsQueryAfterUdp dnsQueryTcpLeg
    cases herr : udp.err with
    | none =>
      cases hr : udp.r with
      | none => simp
      | some r =>
        by_cases hok : r.rcode = 0 ∧ r.truncFlag = false
        · simp [hok]
        · cases htcp : tcp.err <;> simp [hok] <;> (push_neg at hok; simpa using hok)
    | some e =>
      by_cases he : e = NetErr.truncated
      · subst he
        simp only [ne_eq, not_true_eq_false, if_false]
        cases hr : udp.r with
        | none => simp
        | some r =>
          by_cases hok : r.rcode = 0 ∧ r.truncFlag = false
          · simp [hok]
          · cases htcp : tcp.err <;> simp [hok] <;> (push_neg at hok; simpa using hok)
      · simp [he]
  · intro e herr hne
    unfold DnsQuery
    rw [herr]
    simp [hne]

/-- Witness for `dnsquery_tcp_retry_amended`: a truncated SUCCESS
response is retried over TCP, and a plain network error is surfaced
without a retry. -/
theorem dnsquery_tcp_retry_amended_witness :
    (DnsQuery ⟨some ⟨0, true⟩, 3, none⟩ ⟨some ⟨0, false⟩, 9, none⟩).2 = true ∧
    DnsQuery ⟨none, 0, some (NetErr.other 7)⟩ ⟨some ⟨0, false⟩, 9, none⟩ =
      (.fail (NetErr.other 7), false) :=
  ⟨(dnsquery_tcp_retry_amended ⟨some ⟨0, true⟩, 3, none⟩ ⟨some ⟨0, false⟩, 9, none⟩).1.mpr
      (by decide),
   (dnsquery_tcp_retry_amended ⟨none, 0, some (NetErr.other 7)⟩
      ⟨some ⟨0, false⟩, 9, none⟩).2 (NetErr.other 7) rfl (by decide)⟩

/-! ## C6/C10: the frame reader (`read_next_message`, src/ymmv/ymmv.go:87)

The input stream is a byte list with file read semantics: a read
delivers `min n available` bytes; zero bytes with a nonempty request is
`io.EOF`.  `message_reader` treats `io.EOF` as clean end of input and
every other error as fatal (`log.Fatal`), so the embedding distinguishes
exactly these two error classes. -/

inductive RErr where
  | eof
  | fatal
deriving DecidableEq, Repr

/-- The source's `os.Stdin.Read(buf)` followed by its `nread != n`
check: end of input gives `io.EOF`, a short read gives an
`errors.New` error (fatal for `message_reader`). -/
def goRead (n : Nat) (s : List Nat) : Except RErr (List Nat × List Nat) :=
  if n = 0 then .ok ([], s)
  else if s.isEmpty then .error .eof
  else if s.length < n then .error .fatal
  else .ok (s.take n, s.drop n)

/-- The source's `binary.Read` (an `io.ReadFull`): end of input gives
`io.EOF`, a partial field gives `io.ErrUnexpectedEOF` (fatal); the
value is read big-endian. -/
def binRead (n : Nat) (s : List Nat) : Except RErr (Nat × List Nat) :=
  if s.isEmpty then .error .eof
  else if s.length < n then .error .fatal
  else .ok ((s.take n).foldl (fun a b => a * 256 + b % 256) 0, s.drop n)

/-- The zero value of `dns.Msg`, which `read_next_message` keeps when
`Unpack` fails (its error is discarded). -/
def emptyMsg : Msg :=
  ⟨false, 0, false, false, false, false, false, false, 0, [], [], [], []⟩

/-- One decoded framed record. -/
structure YmmvRec where
  ip_family : Nat
  ip_protocol : Nat
  addr : List Nat
  query_time : Nat × Nat
  query : Msg
  answer_time : Nat × Nat
  answer : Msg
deriving DecidableEq, Repr

/-- Shallow embedding of `read_next_message`.  The DNS codec's `Unpack`
is external and enters as the parameter `unpack`; the source discards
its error, keeping the zero message. -/
def read_next_message (unpack : List Nat → Option Msg) (s0 : List Nat) :
    Except RErr (YmmvRec × List Nat) := do
  let (magic, s1) ← goRead 4 s0
  if magic ≠ [121, 109, 109, 118] then throw RErr.fatal
  let (famB, s2) ← goRead 1 s1
  let fam ← if famB = [52] then pure 4
            else if famB = [54] then pure 6
            else throw RErr.fatal
  let (protoB, s3) ← goRead 1 s2
  if protoB ≠ [117] ∧ protoB ≠ [116] then throw RErr.fatal
  let (addr, s4) ← goRead (if fam = 4 then 4 else 16) s3
  let (qsec, s5) ← binRead 4 s4
  let (qnsec, s6) ← binRead 4 s5
  let (qlen, s7) ← binRead 2 s6
  let (qraw, s8) ← goRead qlen s7
  let query := (unpack qraw).getD emptyMsg
  let (asec, s9) ← binRead 4 s8
  let (ansec, s10) ← binRead 4 s9
  let (alen, s11) ← binRead 2 s10
  let (araw, s12) ← goRead alen s11
  let answer := (unpack araw).getD emptyMsg
  pure (⟨fam, protoB.headD 0, addr, (qsec, qnsec), query, (asec, ansec), answer⟩, s12)

/-! ## C10: empty question sections -/

/-- The question-name fetch performed by `yeti_query` for every target
(`iana_query.Question[0].Name`, src/ymmv/ymmv.go:652), with the
obfuscation applied unless clear names are requested. -/
def yetiQueryQname (clear_names : Bool) (sha256 : List Nat → List Nat)
    (secret : List Nat) (iana_query : Msg) : Except GoPanic (List Char) :=
  match iana_query.question with
  | [] => .error .indexOutOfRange
  | q :: _ => .ok (if clear_names then q.name else obfuscate_query sha256 secret q.name)

/-- C10: when the captured query bytes fail to parse, the decoded record
carries the zero message with an empty question section, and both the
comparison and the replay question fetch hit an out-of-bounds index
instead of completing normally. -/
theorem empty_question_panics (unpack : List Nat → Option Msg) (stream : List Nat)
    (rec : YmmvRec) (rest : List Nat)
    (hread : read_next_message unpack stream = .ok (rec, rest))
    (hfail : ∀ b, unpack b = none) :
    rec.query.question = [] ∧
    (∀ yeti : Msg, compare_resp rec.query yeti = .error .indexOutOfRange) ∧
    (∀ clear_names sha256 secret,
      yetiQueryQname clear_names sha256 secret rec.query = .error .indexOutOfRange) := by
  have hq : rec.query.question = [] := by
    simp only [read_next_message, bind, Except.bind] at hread
    repeat' split at hread
    all_goals (try simp_all [hfail, emptyMsg, pure, Except.pure])
    all_goals (obtain ⟨h1, _⟩ := hread; rw [← h1])
  refine ⟨hq, fun yeti => ?_, fun clear_names sha256 secret => ?_⟩
  · unfold compare_resp
    rw [hq]
  · unfold yetiQueryQname
    rw [hq]

/-- Witness for `empty_question_panics` at a concrete 35-byte frame
whose query payload does not parse. -/
theorem empty_question_panics_witness :
    (⟨4, 117, [1, 2, 3, 4], (0, 0), emptyMsg, (0, 0), emptyMsg⟩ : YmmvRec).query.question = [] ∧
    (∀ yeti : Msg,
      compare_resp (⟨4, 117, [1, 2, 3, 4], (0, 0), emptyMsg, (0, 0), emptyMsg⟩ : YmmvRec).query
        yeti = .error .indexOutOfRange) ∧
    (∀ clear_names sha256 secret,
      yetiQueryQname clear_names sha256 secret
        (⟨4, 117, [1, 2, 3, 4], (0, 0), emptyMsg, (0, 0), emptyMsg⟩ : YmmvRec).query =
        .error .indexOutOfRange) :=
  empty_question_panics (fun _ => none)
    ([121, 109, 109, 118] ++ [52] ++ [117] ++ [1, 2, 3, 4] ++
      [0, 0, 0, 0] ++ [0, 0, 0, 0] ++ [0, 1] ++ [7] ++
      [0, 0, 0, 0] ++ [0, 0, 0, 0] ++ [0, 0])
    ⟨4, 117, [1, 2, 3, 4], (0, 0), emptyMsg, (0, 0), emptyMsg⟩ []
    (by rfl) (fun _ => rfl)

/-! ## C6: end-of-stream handling of the frame reader

`message_reader` (src/ymmv/ymmv.go:689) calls `log.Fatal` exactly when
`read_next_message` returns an error other than `io.EOF`.
`read_next_message` propagates the `io.EOF` from `os.Stdin.Read` /
`binary.Read` untouched whenever the stream ends exactly at the start of
any of its reads — including reads in the middle of a record — and
produces a distinct (fatal) error only for a nonempty short read or a
malformed field. -/

/-- `message_reader`'s fatality test (src/ymmv/ymmv.go:689): the error
is fatal exactly when it is non-nil and not `io.EOF`. -/
def reader_is_fatal : Except RErr (YmmvRec × List Nat) → Bool
  | .error RErr.fatal => true
  | _ => false

/-- Big-endian value of a byte list, as computed by `binary.Read`. -/
def bytesVal (xs : List Nat) : Nat :=
  xs.foldl (fun a b => a * 256 + b % 256) 0

/-- A well-formed IPv4 ymmv frame: magic, family `'4'`, protocol byte,
4-byte address, query time (2×4 bytes), query length (2 bytes), query
bytes, answer time (2×4 bytes), answer length (2 bytes), answer bytes. -/
def frameV4 (p a0 a1 a2 a3 qs0 qs1 qs2 qs3 qn0 qn1 qn2 qn3 qh ql : Nat)
    (qraw : List Nat) (as0 as1 as2 as3 an0 an1 an2 an3 ah al : Nat)
    (araw : List Nat) : List Nat :=
  [121, 109, 109, 118, 52, p, a0, a1, a2, a3,
   qs0, qs1, qs2, qs3, qn0, qn1, qn2, qn3, qh, ql] ++ qraw ++
  [as0, as1, as2, as3, an0, an1, an2, an3, ah, al] ++ araw

theorem goRead_exact (xs rest : List Nat) (n : Nat) (h : xs.length = n) :
    goRead n (xs ++ rest) = .ok (xs, rest) := by
  subst h
  rcases xs with _ | ⟨a, xs'⟩
  · simp [goRead]
  · unfold goRead
    rw [if_neg (by simp), if_neg (by simp),
      if_neg (by simp only [List.length_append]; omega),
      List.take_left, List.drop_left]

theorem binRead_exact (xs rest : List Nat) (n : Nat) (h : xs.length = n)
    (hn : n ≠ 0) :
    binRead n (xs ++ rest) = .ok (bytesVal xs, rest) := by
  subst h
  rcases xs with _ | ⟨a, xs'⟩
  · exact absurd rfl hn
  · unfold binRead
    rw [if_neg (by simp), if_neg (by simp only [List.length_append]; omega),
      List.take_left]
    rw [List.drop_left]
    rfl

theorem goRead_cons4 (a b c d : Nat) (rest : List Nat) :
    goRead 4 (a :: b :: c :: d :: rest) = .ok ([a, b, c, d], rest) :=
  goRead_exact [a, b, c, d] rest 4 rfl

theorem goRead_cons1 (a : Nat) (rest : List Nat) :
    goRead 1 (a :: rest) = .ok ([a], rest) :=
  goRead_exact [a] rest 1 rfl

theorem binRead_cons4 (a b c d : Nat) (rest : List Nat) :
    binRead 4 (a :: b :: c :: d :: rest) = .ok (bytesVal [a, b, c, d], rest) :=
  binRead_exact [a, b, c, d] rest 4 rfl (by decide)

theorem binRead_cons2 (a b : Nat) (rest : List Nat) :
    binRead 2 (a :: b :: rest) = .ok (bytesVal [a, b], rest) :=
  binRead_exact [a, b] rest 2 rfl (by decide)

theorem goRead_nil (n : Nat) :
    goRead n [] = if n = 0 then .ok ([], []) else .error RErr.eof := by
  cases n <;> rfl

theorem binRead_nil (n : Nat) : binRead n [] = .error RErr.eof := rfl

theorem goRead_short (n : Nat) (s : List Nat) (hne : s ≠ [])
    (hlt : s.length < n) : goRead n s = .error RErr.fatal := by
  unfold goRead
  rw [if_neg (by rintro rfl; exact Nat.not_lt_zero _ hlt),
    if_neg (by simp [hne]), if_pos hlt]

/-- C6 counterexample: a stream that ends right after the magic — after
the start of a record, well before the last answer byte — yields plain
`io.EOF`, which `message_reader` treats as clean end of input, not as a
fatal error; the claim says every end-of-stream inside a record is
fatal. -/
theorem read_next_message_midrecord_eof_counterexample :
    read_next_message (fun _ => none) [121, 109, 109, 118] = .error RErr.eof ∧
    reader_is_fatal (read_next_message (fun _ => none) [121, 109, 109, 118]) = false := by
  constructor <;> rfl

set_option maxRecDepth 8192 in
set_option maxHeartbeats 1600000 in
/-- C6 (amended): a complete well-formed IPv4 record decodes exactly and
leaves the rest of the stream; end-of-stream at the record boundary —
and equally at *every* interior field boundary after the magic — yields
`io.EOF`, which `message_reader` treats as clean termination; only a
nonempty short read (end-of-stream strictly inside a field, shown for
the magic and the query bytes) is a distinct error that `message_reader`
treats as fatal. -/
theorem read_next_message_eof_amended
    (u : List Nat → Option Msg)
    (p a0 a1 a2 a3 qs0 qs1 qs2 qs3 qn0 qn1 qn2 qn3 qh ql : Nat)
    (qraw : List Nat) (as0 as1 as2 as3 an0 an1 an2 an3 ah al : Nat)
    (araw rest : List Nat)
    (hp : p = 117 ∨ p = 116)
    (hqraw : qraw.length = bytesVal [qh, ql])
    (haraw : araw.length = bytesVal [ah, al]) :
    (read_next_message u
        (frameV4 p a0 a1 a2 a3 qs0 qs1 qs2 qs3 qn0 qn1 qn2 qn3 qh ql qraw
          as0 as1 as2 as3 an0 an1 an2 an3 ah al araw ++ rest) =
      .ok (⟨4, p, [a0, a1, a2, a3],
            (bytesVal [qs0, qs1, qs2, qs3], bytesVal [qn0, qn1, qn2, qn3]),
            (u qraw).getD emptyMsg,
            (bytesVal [as0, as1, as2, as3], bytesVal [an0, an1, an2, an3]),
            (u araw).getD emptyMsg⟩, rest)) ∧
    (read_next_message u [] = .error RErr.eof) ∧
    (read_next_message u [121, 109, 109, 118] = .error RErr.eof) ∧
    (read_next_message u [121, 109, 109, 118, 52] = .error RErr.eof) ∧
    (read_next_message u [121, 109, 109, 118, 52, p] = .error RErr.eof) ∧
    (read_next_message u [121, 109, 109, 118, 52, p, a0, a1, a2, a3] =
      .error RErr.eof) ∧
    (read_next_message u
        [121, 109, 109, 118, 52, p, a0, a1, a2, a3, qs0, qs1, qs2, qs3] =
      .error RErr.eof) ∧
    (read_next_message u
        [121, 109, 109, 118, 52, p, a0, a1, a2, a3, qs0, qs1, qs2, qs3,
         qn0, qn1, qn2, qn3] = .error RErr.eof) ∧
    (read_next_message u
        [121, 109, 109, 118, 52, p, a0, a1, a2, a3, qs0, qs1, qs2, qs3,
         qn0, qn1, qn2, qn3, qh, ql] = .error RErr.eof) ∧
    (read_next_message u
        ([121, 109, 109, 118, 52, p, a0, a1, a2, a3, qs0, qs1, qs2, qs3,
          qn0, qn1, qn2, qn3, qh, ql] ++ qraw) = .error RErr.eof) ∧
    (read_next_message u
        ([121, 109, 109, 118, 52, p, a0, a1, a2, a3, qs0, qs1, qs2, qs3,
          qn0, qn1, qn2, qn3, qh, ql] ++ qraw ++ [as0, as1, as2, as3]) =
      .error RErr.eof) ∧
    (read_next_message u
        ([121, 109, 109, 118, 52, p, a0, a1, a2, a3, qs0, qs1, qs2, qs3,
          qn0, qn1, qn2, qn3, qh, ql] ++ qraw ++
         [as0, as1, as2, as3, an0, an1, an2, an3]) = .error RErr.eof) ∧
    (araw ≠ [] →
      read_next_message u
          ([121, 109, 109, 118, 52, p, a0, a1, a2, a3, qs0, qs1, qs2, qs3,
            qn0, qn1, qn2, qn3, qh, ql] ++ qraw ++
           [as0, as1, as2, as3, an0, an1, an2, an3, ah, al]) =
        .error RErr.eof) ∧
    (∀ m : List Nat, m ≠ [] → m.length < 4 →
      read_next_message u m = .error RErr.fatal) ∧
    (∀ qcut : List Nat, qcut ≠ [] → qcut.length < bytesVal [qh, ql] →
      read_next_message u
          ([121, 109, 109, 118, 52, p, a0, a1, a2, a3, qs0, qs1, qs2, qs3,
            qn0, qn1, qn2, qn3, qh, ql] ++ qcut) = .error RErr.fatal) := by
  have hp1 : ¬([p] ≠ [117] ∧ [p] ≠ [116]) := by
    rcases hp with h | h <;> simp [h]
  have hp3 : ¬p = 117 → p = 116 := fun h => hp.resolve_left h
  refine ⟨?_, ?_, ?_, ?_, ?_, ?_, ?_, ?_, ?_, ?_, ?_, ?_, ?_, ?_, ?_⟩
  · have h8 := goRead_exact qraw
      (as0 :: as1 :: as2 :: as3 :: an0 :: an1 :: an2 :: an3 :: ah :: al ::
        (araw ++ rest)) (bytesVal [qh, ql]) hqraw
    have h12 := goRead_exact araw rest (bytesVal [ah, al]) haraw
    simp [read_next_message, frameV4, goRead_cons4, goRead_cons1, binRead_cons4,
      binRead_cons2, h8, h12, hp1, hp3, bind, Except.bind, pure, Except.pure] <;> try exact hp3
  · rfl
  · simp [read_next_message, goRead_cons4, goRead_nil, bind, Except.bind,
      pure, Except.pure] <;> try exact hp3
  · simp [read_next_message, goRead_cons4, goRead_cons1, goRead_nil, bind,
      Except.bind, pure, Except.pure] <;> try exact hp3
  · simp [read_next_message, goRead_cons4, goRead_cons1, goRead_nil, hp1, hp3, bind,
      Except.bind, pure, Except.pure] <;> try exact hp3
  · simp [read_next_message, goRead_cons4, goRead_cons1, binRead_nil, hp1, hp3, bind,
      Except.bind, pure, Except.pure] <;> try exact hp3
  · simp [read_next_message, goRead_cons4, goRead_cons1, binRead_cons4,
      binRead_nil, hp1, hp3, bind, Except.bind, pure, Except.pure] <;> try exact hp3
  · simp [read_next_message, goRead_cons4, goRead_cons1, binRead_cons4,
      binRead_nil, hp1, hp3, bind, Except.bind, pure, Except.pure] <;> try exact hp3
  · by_cases h0 : bytesVal [qh, ql] = 0
    · simp [read_next_message, goRead_cons4, goRead_cons1, binRead_cons4,
        binRead_cons2, goRead_nil, binRead_nil, h0, hp1, hp3, bind, Except.bind,
        pure, Except.pure] <;> try exact hp3
    · simp [read_next_message, goRead_cons4, goRead_cons1, binRead_cons4,
        binRead_cons2, goRead_nil, binRead_nil, h0, hp1, hp3, bind, Except.bind,
        pure, Except.pure] <;> try exact hp3
  · have h8 := goRead_exact qraw [] (bytesVal [qh, ql]) hqraw
    rw [List.append_nil] at h8
    simp [read_next_message, goRead_cons4, goRead_cons1, binRead_cons4,
      binRead_cons2, h8, binRead_nil, hp1, hp3, bind, Except.bind, pure, Except.pure] <;> try exact hp3
  · have h8 := goRead_exact qraw [as0, as1, as2, as3] (bytesVal [qh, ql]) hqraw
    simp [read_next_message, goRead_cons4, goRead_cons1, binRead_cons4,
      binRead_cons2, h8, binRead_nil, hp1, hp3, bind, Except.bind, pure, Except.pure] <;> try exact hp3
  · have h8 := goRead_exact qraw [as0, as1, as2, as3, an0, an1, an2, an3]
      (bytesVal [qh, ql]) hqraw
    simp [read_next_message, goRead_cons4, goRead_cons1, binRead_cons4,
      binRead_cons2, h8, binRead_nil, hp1, hp3, bind, Except.bind, pure, Except.pure] <;> try exact hp3
  · intro hne
    have h8 := goRead_exact qraw
      [as0, as1, as2, as3, an0, an1, an2, an3, ah, al] (bytesVal [qh, ql]) hqraw
    have h0 : bytesVal [ah, al] ≠ 0 := by
      rw [← haraw]
      simpa using hne
    simp [read_next_message, goRead_cons4, goRead_cons1, binRead_cons4,
      binRead_cons2, h8, goRead_nil, h0, hp1, hp3, bind, Except.bind, pure,
      Except.pure] <;> try exact hp3
  · intro m hne hlt
    simp [read_next_message, goRead_short 4 m hne hlt, bind, Except.bind] <;> try exact hp3
  · intro qcut hne hlt
    have h8 := goRead_short (bytesVal [qh, ql]) qcut hne hlt
    simp [read_next_message, goRead_cons4, goRead_cons1, binRead_cons4,
      binRead_cons2, h8, hp1, hp3, bind, Except.bind, pure, Except.pure] <;> try exact hp3

/-- Witness for `read_next_message_eof_amended` at a concrete frame:
the full record decodes, an interior field-boundary cut yields `io.EOF`,
and a two-byte stream is a fatal short read. -/
theorem read_next_message_eof_amended_witness :
    read_next_message (fun _ => none)
        (frameV4 117 1 2 3 4 0 0 0 0 0 0 0 1 0 1 [7] 0 0 0 2 0 0 0 3 0 1 [9] ++
          []) =
      .ok (⟨4, 117, [1, 2, 3, 4], (0, 1), emptyMsg, (2, 3), emptyMsg⟩, []) ∧
    read_next_message (fun _ => none)
        [121, 109, 109, 118, 52, 117, 1, 2, 3, 4] = .error RErr.eof ∧
    read_next_message (fun _ => none) [121, 109] = .error RErr.fatal :=
  ⟨(read_next_message_eof_amended (fun _ => none) 117 1 2 3 4 0 0 0 0 0 0 0 1
      0 1 [7] 0 0 0 2 0 0 0 3 0 1 [9] [] (Or.inl rfl) (by rfl) (by rfl)).1,
   (read_next_message_eof_amended (fun _ => none) 117 1 2 3 4 0 0 0 0 0 0 0 1
      0 1 [7] 0 0 0 2 0 0 0 3 0 1 [9] [] (Or.inl rfl) (by rfl)
      (by rfl)).2.2.2.2.2.1,
   (read_next_message_eof_amended (fun _ => none) 117 1 2 3 4 0 0 0 0 0 0 0 1
      0 1 [7] 0 0 0 2 0 0 0 3 0 1 [9] [] (Or.inl rfl) (by rfl)
      (by rfl)).2.2.2.2.2.2.2.2.2.2.2.2.2.1 [121, 109] (by decide) (by decide)⟩

/-! ## C7: the orchestrator main loop (`main`, src/ymmv/ymmv.go:750)

The loop is `for { select { case y := <-messages: if y == nil { break }
...; case str := <-query_output: ... } }`.  Per the Go language
specification, a `break` statement terminates the innermost `for`,
`switch` or `select` statement, so the `break` taken when the nil
sentinel arrives terminates only the `select`; the enclosing `for` has
no exit, and the drain loop after it (with its comment about waiting for
outstanding queries) is unreachable.  The loop is modelled as a step
function over delivered channel events, with an explicit program-point
phase so that reaching the drain loop or process exit is observable. -/

inductive MainEvent where
  | message (y : Option YmmvRec)
  | queryOutput (s : List Line)

inductive MainPhase where
  | selectLoop
  | drainLoop
  | exited (code : Nat)
deriving DecidableEq, Repr

structure MainState where
  phase : MainPhase
  query_count : Int
  printed : List (List Line)

/-- One iteration of the main loop on one delivered event.  In the
`message none` arm the source's `break` leaves the `select` only, so the
next program point is again the top of the `for` loop. -/
def main_loop_step (st : MainState) (e : MainEvent) : MainState :=
  match st.phase with
  | .selectLoop =>
    match e with
    | .message none => { st with phase := .selectLoop }
    | .message (some _) => { st with query_count := st.query_count + 1 }
    | .queryOutput s =>
      { st with query_count := st.query_count - 1, printed := st.printed ++ [s] }
  | _ => st

def main_loop_run (es : List MainEvent) (st : MainState) : MainState :=
  es.foldl main_loop_step st

/-- C7 (code defect): after any sequence of delivered events — in
particular after the end-of-input sentinel — the main loop is still at
the top of its `for`/`select`; it never reaches the drain loop and never
exits with status 0, contrary to the claim (the unreachable drain code
after the loop shows the claimed behaviour is what was intended). -/
theorem main_loop_never_exits (es : List MainEvent) (st : MainState)
    (h : st.phase = .selectLoop) :
    (main_loop_run es st).phase = .selectLoop := by
  induction es generalizing st with
  | nil => simpa [main_loop_run] using h
  | cons e es ih =>
    have hstep : (main_loop_step st e).phase = .selectLoop := by
      unfold main_loop_step
      rw [h]
      cases e with
      | message y => cases y <;> simp
      | queryOutput s => simp
    show (main_loop_run es (main_loop_step st e)).phase = .selectLoop
    exact ih _ hstep

/-- Witness for `main_loop_never_exits`: an empty capture stream (the
reader delivers only the nil sentinel) leaves the loop running. -/
theorem main_loop_never_exits_witness :
    (main_loop_run [MainEvent.message none] ⟨.selectLoop, 0, []⟩).phase =
      MainPhase.selectLoop :=
  main_loop_never_exits [MainEvent.message none] ⟨.selectLoop, 0, []⟩ rfl

/-! ## Order-theoretic facts about the comparator and the sort -/

/-- The comparator as a strict lexicographic order on its sort key. -/
def lexLt3 (a b : Nat × Nat × List Char) : Bool :=
  if a.1 < b.1 then true
  else if b.1 < a.1 then false
  else if a.2.1 < b.2.1 then true
  else if b.2.1 < a.2.1 then false
  else strLt a.2.2 b.2.2

def sortKey (x : RR) : Nat × Nat × List Char :=
  (x.header.rrtype, x.header.ttl, adjustedText x)

theorem rr_sort_less_eq_lexLt3 (x y : RR) :
    rr_sort_less x y = lexLt3 (sortKey x) (sortKey y) := by
  rw [rr_sort_less_amended]
  rfl

theorem lexLt3_iff (a b : Nat × Nat × List Char) :
    lexLt3 a b = true ↔
      a.1 < b.1 ∨ (a.1 = b.1 ∧ (a.2.1 < b.2.1 ∨
        (a.2.1 = b.2.1 ∧ strLt a.2.2 b.2.2 = true))) := by
  unfold lexLt3
  by_cases h1 : a.1 < b.1
  · simp [h1]
  · by_cases h2 : b.1 < a.1
    · simp [h1, h2, show a.1 ≠ b.1 by omega]
    · have he : a.1 = b.1 := by omega
      by_cases h3 : a.2.1 < b.2.1
      · simp [h1, h2, h3, he]
      · by_cases h4 : b.2.1 < a.2.1
        · simp [h1, h2, h3, h4, he, show a.2.1 ≠ b.2.1 by omega]
        · have he2 : a.2.1 = b.2.1 := by omega
          simp [h1, h2, h3, h4, he, he2]

theorem lexLt3_asymm (a b : Nat × Nat × List Char) (h : lexLt3 a b = true) :
    lexLt3 b a = false := by
  by_contra hc
  have hc' : lexLt3 b a = true := by
    cases hba : lexLt3 b a
    · exact absurd hba hc
    · rfl
  rw [lexLt3_iff] at h hc'
  rcases h with h | ⟨he, h⟩ <;> rcases hc' with hc' | ⟨hce, hc'⟩
  · omega
  · omega
  · omega
  · rcases h with h | ⟨he2, h⟩ <;> rcases hc' with hc' | ⟨hce2, hc'⟩
    · omega
    · omega
    · omega
    · have := strLt_asymm _ _ h
      rw [hc'] at this
      cases this

theorem lexLt3_trans (a b c : Nat × Nat × List Char)
    (h1 : lexLt3 a b = true) (h2 : lexLt3 b c = true) : lexLt3 a c = true := by
  rw [lexLt3_iff] at h1 h2 ⊢
  rcases h1 with h1 | ⟨he1, h1⟩ <;> rcases h2 with h2 | ⟨he2, h2⟩
  · left; omega
  · left; omega
  · left; omega
  · right
    refine ⟨by omega, ?_⟩
    rcases h1 with h1 | ⟨hf1, h1⟩ <;> rcases h2 with h2 | ⟨hf2, h2⟩
    · left; omega
    · left; omega
    · left; omega
    · right
      exact ⟨by omega, strLt_trans _ _ _ h1 h2⟩

theorem lexLt3_antisymm (a b : Nat × Nat × List Char)
    (h1 : lexLt3 a b = false) (h2 : lexLt3 b a = false) : a = b := by
  have h1' : ¬ lexLt3 a b = true := by simp [h1]
  have h2' : ¬ lexLt3 b a = true := by simp [h2]
  rw [lexLt3_iff] at h1' h2'
  push_neg at h1' h2'
  obtain ⟨hle1, hrest1⟩ := h1'
  obtain ⟨hle2, hrest2⟩ := h2'
  have hn1 : a.1 = b.1 := by omega
  obtain ⟨hle3, hs1'⟩ := hrest1 hn1
  obtain ⟨hle4, hs2'⟩ := hrest2 hn1.symm
  have hn2 : a.2.1 = b.2.1 := by omega
  have hs1 := hs1' hn2
  have hs2 := hs2' hn2.symm
  have hn3 : a.2.2 = b.2.2 := by
    apply strLt_antisymm
    · cases h : strLt a.2.2 b.2.2
      · rfl
      · exact absurd h hs1
    · cases h : strLt b.2.2 a.2.2
      · rfl
      · exact absurd h hs2
  rcases a with ⟨a1, a2, a3⟩
  rcases b with ⟨b1, b2, b3⟩
  simp only at hn1 hn2 hn3
  simp [hn1, hn2, hn3]

theorem rrLE_total (x y : RR) : rrLE x y = true ∨ rrLE y x = true := by
  unfold rrLE
  cases hxy : rr_sort_less y x
  · left; simp
  · right
    rw [rr_sort_less_eq_lexLt3] at hxy
    rw [rr_sort_less_eq_lexLt3]
    simp [lexLt3_asymm _ _ hxy]

theorem rrLE_trans (x y z : RR) (h1 : rrLE x y = true) (h2 : rrLE y z = true) :
    rrLE x z = true := by
  unfold rrLE at h1 h2 ⊢
  rw [Bool.not_eq_true'] at h1 h2 ⊢
  rw [rr_sort_less_eq_lexLt3] at h1 h2 ⊢
  by_contra hc
  have hc' : lexLt3 (sortKey z) (sortKey x) = true := by
    cases h : lexLt3 (sortKey z) (sortKey x)
    · exact absurd h hc
    · rfl
  cases hxy : lexLt3 (sortKey x) (sortKey y) with
  | true =>
    have := lexLt3_trans _ _ _ hc' hxy
    rw [this] at h2
    cases h2
  | false =>
    have hkey := lexLt3_antisymm _ _ hxy h1
    rw [← hkey] at h2
    rw [hc'] at h2
    cases h2

/-- Sortedness for the derived order. -/
def rrSorted (l : List RR) : Prop := l.Pairwise (fun a b => rrLE a b = true)

theorem mem_orderedInsertRR (x z : RR) (l : List RR) :
    z ∈ orderedInsertRR x l ↔ z = x ∨ z ∈ l := by
  induction l with
  | nil => simp [orderedInsertRR]
  | cons y ys ih =>
    unfold orderedInsertRR
    by_cases h : rrLE x y = true
    · simp [h]
    · simp [h, ih]
      tauto

theorem pairwise_orderedInsertRR (x : RR) (l : List RR) (hl : rrSorted l) :
    rrSorted (orderedInsertRR x l) := by
  induction l with
  | nil => simp [orderedInsertRR, rrSorted]
  | cons y ys ih =>
    rcases List.pairwise_cons.mp hl with ⟨hy, hys⟩
    unfold orderedInsertRR
    by_cases h : rrLE x y = true
    · rw [if_pos h]
      apply List.pairwise_cons.mpr
      refine ⟨?_, hl⟩
      intro z hz
      rcases List.mem_cons.mp hz with rfl | hz
      · exact h
      · exact rrLE_trans x y z h (hy z hz)
    · rw [if_neg h]
      apply List.pairwise_cons.mpr
      constructor
      · intro z hz
        rcases (mem_orderedInsertRR x z ys).mp hz with hzx | hz
        · rw [hzx]
          rcases rrLE_total x y with h' | h'
          · exact absurd h' h
          · exact h'
        · exact hy z hz
      · exact ih hys

theorem sortRRs_sorted (l : List RR) : rrSorted (sortRRs l) := by
  induction l with
  | nil => simp [sortRRs, rrSorted]
  | cons x xs ih => exact pairwise_orderedInsertRR x (sortRRs xs) ih

theorem mem_sortRRs (z : RR) (l : List RR) : z ∈ sortRRs l ↔ z ∈ l := by
  induction l with
  | nil => simp [sortRRs]
  | cons x xs ih =>
    show z ∈ orderedInsertRR x (sortRRs xs) ↔ _
    rw [mem_orderedInsertRR, ih]
    simp [eq_comm]

theorem filter_orderedInsertRR_neg (p : RR → Bool) (x : RR) (hx : p x = false)
    (l : List RR) :
    (orderedInsertRR x l).filter p = l.filter p := by
  induction l with
  | nil => simp [orderedInsertRR, hx]
  | cons y ys ih =>
    unfold orderedInsertRR
    by_cases h : rrLE x y = true
    · simp [h, List.filter_cons, hx]
    · rw [if_neg h]
      simp [List.filter_cons, ih]

theorem filter_orderedInsertRR_pos (p : RR → Bool) (x : RR) (hx : p x = true)
    (l : List RR) (hl : rrSorted l) :
    (orderedInsertRR x l).filter p = orderedInsertRR x (l.filter p) := by
  induction l with
  | nil => simp [orderedInsertRR, hx]
  | cons y ys ih =>
    rcases List.pairwise_cons.mp hl with ⟨hy, hys⟩
    by_cases h : rrLE x y = true
    · rw [show orderedInsertRR x (y :: ys) = x :: y :: ys from by
        simp [orderedInsertRR, h]]
      cases hpy : p y with
      | true =>
        rw [show List.filter p (y :: ys) = y :: List.filter p ys from by
          simp [List.filter_cons, hpy]]
        rw [show orderedInsertRR x (y :: List.filter p ys) = x :: y :: List.filter p ys from by
          simp [orderedInsertRR, h]]
        simp [List.filter_cons, hx, hpy]
      | false =>
        rw [show List.filter p (y :: ys) = List.filter p ys from by
          simp [List.filter_cons, hpy]]
        rw [show List.filter p (x :: y :: ys) = x :: List.filter p ys from by
          simp [List.filter_cons, hx, hpy]]
        cases hf : List.filter p ys with
        | nil => simp [orderedInsertRR]
        | cons z zs =>
          have hz : z ∈ ys := List.mem_of_mem_filter
            (show z ∈ List.filter p ys from by rw [hf]; simp)
          have hxz : rrLE x z = true := rrLE_trans x y z h (hy z hz)
          simp [orderedInsertRR, hxz]
    · rw [show orderedInsertRR x (y :: ys) = y :: orderedInsertRR x ys from by
        simp [orderedInsertRR, h]]
      cases hpy : p y with
      | true =>
        rw [show List.filter p (y :: ys) = y :: List.filter p ys from by
          simp [List.filter_cons, hpy]]
        rw [show orderedInsertRR x (y :: List.filter p ys) =
            y :: orderedInsertRR x (List.filter p ys) from by
          simp [orderedInsertRR, h]]
        simp [List.filter_cons, hpy, ih hys]
      | false =>
        rw [show List.filter p (y :: ys) = List.filter p ys from by
          simp [List.filter_cons, hpy]]
        simp [List.filter_cons, hpy, ih hys]

theorem filter_sortRRs (p : RR → Bool) (l : List RR) :
    (sortRRs l).filter p = sortRRs (l.filter p) := by
  induction l with
  | nil => rfl
  | cons x xs ih =>
    show (orderedInsertRR x (sortRRs xs)).filter p = sortRRs (List.filter p (x :: xs))
    cases hx : p x with
    | true =>
      rw [filter_orderedInsertRR_pos p x hx _ (sortRRs_sorted xs), ih]
      simp [List.filter_cons, hx, sortRRs]
    | false =>
      rw [filter_orderedInsertRR_neg p x hx, ih]
      simp [List.filter_cons, hx]

/-! ## The matching scan of `compare_section` as key consumption

Both outputs of the nested-loop matching are characterised by a single
specification device: scan a list left to right, consuming one matching
key from a multiset of available keys per matched element. -/

def unmatchedBy (avail : Multiset (List Char)) : List RR → List RR
  | [] => []
  | x :: xs =>
    if matchText x ∈ avail then unmatchedBy (avail.erase (matchText x)) xs
    else x :: unmatchedBy avail xs

theorem removeFirstMatch_none_iff (x : RR) (l : List RR) :
    removeFirstMatch x l = none ↔ matchText x ∉ l.map matchText := by
  induction l with
  | nil => simp [removeFirstMatch]
  | cons y ys ih =>
    unfold removeFirstMatch
    by_cases h : matchText x = matchText y
    · simp [h]
    · simp [h, ih, Ne.symm h]

theorem removeFirstMatch_some_spec (x : RR) (l l' : List RR)
    (h : removeFirstMatch x l = some l') :
    (↑(l'.map matchText) : Multiset (List Char)) =
      (↑(l.map matchText) : Multiset (List Char)).erase (matchText x) ∧
    matchText x ∈ (↑(l.map matchText) : Multiset (List Char)) := by
  induction l generalizing l' with
  | nil => simp [removeFirstMatch] at h
  | cons y ys ih =>
    unfold removeFirstMatch at h
    by_cases hxy : matchText x = matchText y
    · rw [if_pos hxy] at h
      obtain rfl : ys = l' := by simpa using h
      constructor
      · simp only [List.map_cons]
        rw [show ((↑(matchText y :: ys.map matchText) : Multiset (List Char))) =
            matchText y ::ₘ ↑(ys.map matchText) from rfl]
        rw [hxy, Multiset.erase_cons_head]
      · simp [hxy]
    · rw [if_neg hxy] at h
      cases hrec : removeFirstMatch x ys with
      | none => rw [hrec] at h; simp at h
      | some ys' =>
        rw [hrec] at h
        obtain rfl : y :: ys' = l' := by simpa using h
        obtain ⟨h1, h2⟩ := ih ys' hrec
        constructor
        · simp only [List.map_cons]
          rw [show ((↑(matchText y :: ys'.map matchText) : Multiset (List Char))) =
              matchText y ::ₘ ↑(ys'.map matchText) from rfl]
          rw [show ((↑(matchText y :: ys.map matchText) : Multiset (List Char))) =
              matchText y ::ₘ ↑(ys.map matchText) from rfl]
          rw [Multiset.erase_cons_tail_of_mem h2, h1]
        · simp only [List.map_cons]
          rw [show ((↑(matchText y :: ys.map matchText) : Multiset (List Char))) =
              matchText y ::ₘ ↑(ys.map matchText) from rfl]
          exact Multiset.mem_cons_of_mem h2

theorem scanIana_fst_eq (a : List RR) :
    ∀ b : List RR, (scanIana a b).1 = unmatchedBy (↑(b.map matchText)) a := by
  induction a with
  | nil => intro b; simp [scanIana, unmatchedBy]
  | cons x xs ih =>
    intro b
    unfold scanIana unmatchedBy
    cases h : removeFirstMatch x b with
    | some b' =>
      obtain ⟨h1, h2⟩ := removeFirstMatch_some_spec x b b' h
      rw [if_pos (by simpa using h2)]
      rw [ih b', h1]
    | none =>
      have h2 : matchText x ∉ b.map matchText := (removeFirstMatch_none_iff x b).mp h
      rw [if_neg (by simpa using h2)]
      simp [ih b]

theorem unmatchedBy_zero (a : List RR) : unmatchedBy 0 a = a := by
  induction a with
  | nil => rfl
  | cons x xs ih => simp [unmatchedBy, ih]

theorem unmatchedBy_cons (avail : Multiset (List Char)) (x : RR) (xs : List RR) :
    unmatchedBy avail (x :: xs) =
      if matchText x ∈ avail then unmatchedBy (avail.erase (matchText x)) xs
      else x :: unmatchedBy avail xs := rfl

theorem unmatchedBy_cons_of_removeFirst (y : RR) (a : List RR) :
    ∀ (a' : List RR) (m : Multiset (List Char)), removeFirstMatch y a = some a' →
    unmatchedBy (matchText y ::ₘ m) a = unmatchedBy m a' := by
  induction a with
  | nil => intro a' m h; simp [removeFirstMatch] at h
  | cons x xs ih =>
    intro a' m h
    unfold removeFirstMatch at h
    by_cases hxy : matchText y = matchText x
    · rw [if_pos hxy] at h
      obtain rfl : xs = a' := by simpa using h
      rw [unmatchedBy_cons]
      rw [if_pos (by rw [← hxy]; exact Multiset.mem_cons_self _ _)]
      rw [← hxy, Multiset.erase_cons_head]
    · rw [if_neg hxy] at h
      cases hrec : removeFirstMatch y xs with
      | none => rw [hrec] at h; simp at h
      | some xs' =>
        rw [hrec] at h
        obtain rfl : x :: xs' = a' := by simpa using h
        rw [unmatchedBy_cons, unmatchedBy_cons]
        by_cases hm : matchText x ∈ m
        · rw [if_pos (Multiset.mem_cons_of_mem hm), if_pos hm,
            Multiset.erase_cons_tail_of_mem hm]
          exact ih xs' _ hrec
        · rw [if_neg (by
            intro hc
            rcases Multiset.mem_cons.mp hc with hc | hc
            · exact hxy hc.symm
            · exact hm hc), if_neg hm, ih xs' m hrec]

theorem unmatchedBy_cons_of_no_match (y : RR) (a : List RR) :
    ∀ m : Multiset (List Char), removeFirstMatch y a = none →
    unmatchedBy (matchText y ::ₘ m) a = unmatchedBy m a := by
  induction a with
  | nil => intro m _; rfl
  | cons x xs ih =>
    intro m h
    have hnot : matchText y ∉ (x :: xs).map matchText :=
      (removeFirstMatch_none_iff y _).mp h
    have hxy : matchText y ≠ matchText x := fun hc => hnot (by simp [hc])
    have hxs : removeFirstMatch y xs = none := by
      rw [removeFirstMatch_none_iff]
      intro hc; exact hnot (by simp [hc])
    rw [unmatchedBy_cons, unmatchedBy_cons]
    by_cases hm : matchText x ∈ m
    · rw [if_pos (Multiset.mem_cons_of_mem hm), if_pos hm,
        Multiset.erase_cons_tail_of_mem hm, ih _ hxs]
    · rw [if_neg (by
        intro hc
        rcases Multiset.mem_cons.mp hc with hc | hc
        · exact hxy hc.symm
        · exact hm hc), if_neg hm, ih m hxs]

theorem scanIana_snd_eq (b : List RR) :
    ∀ a : List RR, (scanIana b a).2 = unmatchedBy (↑(b.map matchText)) a := by
  induction b with
  | nil =>
    intro a
    show a = unmatchedBy (↑([] : List (List Char))) a
    rw [show (↑([] : List (List Char)) : Multiset (List Char)) = 0 from rfl,
      unmatchedBy_zero]
  | cons y ys ih =>
    intro a
    unfold scanIana
    rw [show ((↑((y :: ys).map matchText) : Multiset (List Char))) =
        matchText y ::ₘ ↑(ys.map matchText) from rfl]
    cases h : removeFirstMatch y a with
    | some a' =>
      rw [unmatchedBy_cons_of_removeFirst y a a' _ h]
      exact ih a'
    | none =>
      rw [unmatchedBy_cons_of_no_match y a _ h]
      exact ih a

theorem unmatchedBy_self_keys (a : List RR) :
    unmatchedBy (↑(a.map matchText)) a = [] := by
  induction a with
  | nil => rfl
  | cons x xs ih =>
    unfold unmatchedBy
    rw [show ((↑((x :: xs).map matchText) : Multiset (List Char))) =
        matchText x ::ₘ ↑(xs.map matchText) from rfl]
    rw [if_pos (Multiset.mem_cons_self _ _), Multiset.erase_cons_head]
    exact ih

/-- The two outputs of the matching loops, for identical inputs, are
empty. -/
theorem compare_section_self (l : List RR) :
    compare_section l l =
      ⟨[], [], ((l.filter isRootSOA).getLast?), ((l.filter isRootSOA).getLast?)⟩ := by
  have h1 := scanIana_fst_eq (l.filter keptRR) (l.filter keptRR)
  have h2 := scanIana_snd_eq (l.filter keptRR) (l.filter keptRR)
  rw [unmatchedBy_self_keys] at h1 h2
  have hscan : scanIana (l.filter keptRR) (l.filter keptRR) = ([], []) :=
    Prod.ext h1 h2
  unfold compare_section
  rw [hscan]

/-- Swapping the two inputs of `compare_section` exchanges the two
"only" outputs exactly. -/
theorem compare_section_swap (A B : List RR) :
    (compare_section A B).iana_only = (compare_section B A).yeti_only ∧
    (compare_section A B).yeti_only = (compare_section B A).iana_only := by
  unfold compare_section
  constructor
  · show (scanIana (A.filter keptRR) (B.filter keptRR)).1 =
      (scanIana (B.filter keptRR) (A.filter keptRR)).2
    rw [scanIana_fst_eq, scanIana_snd_eq]
  · show (scanIana (A.filter keptRR) (B.filter keptRR)).2 =
      (scanIana (B.filter keptRR) (A.filter keptRR)).1
    rw [scanIana_fst_eq, scanIana_snd_eq]

/-! ## Characterising `compare_additional` -/

/-- The members of one RRset group of `extract_rrset`. -/
def groupOf (l : List RR) (k : Nat × List Char) : List RR :=
  sortRRs ((l.filter (fun rr => decide (rrKey rr = k))).map lowerName)

theorem extract_rrset_eq (l : List RR) :
    extract_rrset l = (firstKeys (l.map rrKey)).map (fun k => (k, groupOf l k)) := rfl

theorem firstKeys_mem (ks : List (Nat × List Char)) (k : Nat × List Char) :
    k ∈ firstKeys ks ↔ k ∈ ks := by
  induction ks with
  | nil => simp [firstKeys]
  | cons k' ks' ih =>
    by_cases hk : k = k'
    · simp [firstKeys, hk]
    · simp [firstKeys, List.mem_filter, ih, hk]

theorem firstKeys_nodup (ks : List (Nat × List Char)) : (firstKeys ks).Nodup := by
  induction ks with
  | nil => simp [firstKeys]
  | cons k' ks' ih =>
    rw [firstKeys]
    apply List.nodup_cons.mpr
    refine ⟨?_, ih.filter _⟩
    intro hmem
    have := (List.mem_filter.mp hmem).2
    simp at this

theorem lookupKey_map (G : (Nat × List Char) → List RR) (k : Nat × List Char) :
    ∀ ks : List (Nat × List Char),
      lookupKey k (ks.map (fun k' => (k', G k'))) =
        if k ∈ ks then some (G k) else none := by
  intro ks
  induction ks with
  | nil => simp [lookupKey]
  | cons k' ks' ih =>
    simp only [List.map_cons, lookupKey]
    by_cases h : k' = k
    · subst h; simp
    · rw [if_neg h, ih]
      by_cases hm : k ∈ ks' <;> simp [hm, h, Ne.symm h]

theorem lookup_extract (l : List RR) (k : Nat × List Char) :
    lookupKey k (extract_rrset l) =
      if k ∈ l.map rrKey then some (groupOf l k) else none := by
  rw [extract_rrset_eq, lookupKey_map]
  simp [firstKeys_mem]

/-- The per-key decision of the `compare_additional` loop: skip OPT and
RRSIG sets; otherwise the key contributes exactly when it is present on
the shadow side with a different group. -/
def addlQual (ym : List ((Nat × List Char) × List RR))
    (G : (Nat × List Char) → List RR) (k : Nat × List Char) : Bool :=
  if ((G k).headD defRR).header.rrtype == TypeOPT then false
  else if ((G k).headD defRR).header.rrtype == TypeRRSIG then false
  else
    match lookupKey k ym with
    | some yset => decide (G k ≠ yset)
    | none => false

theorem addlScan_cons (ym : List ((Nat × List Char) × List RR))
    (e : (Nat × List Char) × List RR) (rest : List ((Nat × List Char) × List RR)) :
    addlScan ym (e :: rest) =
      (let r := addlScan ym rest
       if (e.2.headD defRR).header.rrtype == TypeOPT then r
       else if (e.2.headD defRR).header.rrtype == TypeRRSIG then r
       else
         match lookupKey e.1 ym with
         | some yset => if decide (e.2 = yset) then r else (e.2 ++ r.1, yset ++ r.2)
         | none => r) := rfl

theorem addlScan_eq (ym : List ((Nat × List Char) × List RR))
    (G : (Nat × List Char) → List RR) :
    ∀ ks : List (Nat × List Char),
      addlScan ym (ks.map (fun k => (k, G k))) =
        ((ks.filter (addlQual ym G)).flatMap G,
         (ks.filter (addlQual ym G)).flatMap (fun k => (lookupKey k ym).getD [])) := by
  intro ks
  induction ks with
  | nil => rfl
  | cons k ks ih =>
    rw [List.map_cons, addlScan_cons]
    dsimp only
    rw [ih]
    by_cases hopt : (((G k).headD defRR).header.rrtype == TypeOPT) = true
    · have haq : addlQual ym G k = false := by
        unfold addlQual; rw [if_pos hopt]
      rw [if_pos hopt]
      simp [List.filter_cons, haq]
    · rw [if_neg hopt]
      by_cases hsig : (((G k).headD defRR).header.rrtype == TypeRRSIG) = true
      · have haq : addlQual ym G k = false := by
          unfold addlQual; rw [if_neg hopt, if_pos hsig]
        rw [if_pos hsig]
        simp [List.filter_cons, haq]
      · rw [if_neg hsig]
        cases hlook : lookupKey k ym with
        | none =>
          have haq : addlQual ym G k = false := by
            unfold addlQual; rw [if_neg hopt, if_neg hsig, hlook]
          simp [List.filter_cons, haq]
        | some yset =>
          dsimp only
          by_cases heq : G k = yset
          · have haq : addlQual ym G k = false := by
              unfold addlQual; rw [if_neg hopt, if_neg hsig, hlook]
              simp [heq]
            rw [if_pos (by simp [heq])]
            simp [List.filter_cons, haq]
          · have haq : addlQual ym G k = true := by
              unfold addlQual; rw [if_neg hopt, if_neg hsig, hlook]
              simp [heq]
            rw [if_neg (by simp [heq])]
            simp [List.filter_cons, haq, hlook]

/-- The keys whose RRsets differ between the two sides (the claim's "set
of keys that differ"). -/
def differingKeys (A B : List RR) : List (Nat × List Char) :=
  (firstKeys (A.map rrKey)).filter (addlQual (extract_rrset B) (groupOf A))

theorem compare_additional_eq (A B : List RR) :
    compare_additional A B =
      ((differingKeys A B).flatMap (groupOf A),
       (differingKeys A B).flatMap
         (fun k => (lookupKey k (extract_rrset B)).getD [])) := by
  unfold compare_additional differingKeys
  rw [extract_rrset_eq A, addlScan_eq]

theorem compare_additional_self (l : List RR) :
    compare_additional l l = ([], []) := by
  rw [compare_additional_eq]
  have hdk : differingKeys l l = [] := by
    unfold differingKeys
    apply List.filter_eq_nil_iff.mpr
    intro k hk
    have hk' : k ∈ l.map rrKey := (firstKeys_mem _ _).mp hk
    unfold addlQual
    rw [lookup_extract, if_pos hk']
    split
    · simp
    · split
      · simp
      · simp
  rw [hdk]
  rfl

theorem groupOf_ne_nil (l : List RR) (k : Nat × List Char)
    (hk : k ∈ l.map rrKey) : groupOf l k ≠ [] := by
  obtain ⟨rr, hrr, hkey⟩ := List.mem_map.mp hk
  intro hempty
  have hmem : lowerName rr ∈ groupOf l k := by
    unfold groupOf
    rw [mem_sortRRs]
    exact List.mem_map_of_mem _ (List.mem_filter.mpr ⟨hrr, by simp [hkey]⟩)
  rw [hempty] at hmem
  simp at hmem

theorem groupOf_mem_rrtype (l : List RR) (k : Nat × List Char) (z : RR)
    (hz : z ∈ groupOf l k) : z.header.rrtype = k.1 := by
  unfold groupOf at hz
  rw [mem_sortRRs] at hz
  obtain ⟨rr, hrr, hzeq⟩ := List.mem_map.mp hz
  have hkey : rrKey rr = k := by simpa using (List.mem_filter.mp hrr).2
  rw [← hzeq, ← hkey]
  rfl

theorem groupOf_headD_rrtype (l : List RR) (k : Nat × List Char)
    (hk : k ∈ l.map rrKey) :
    ((groupOf l k).headD defRR).header.rrtype = k.1 := by
  cases hg : groupOf l k with
  | nil => exact absurd hg (groupOf_ne_nil l k hk)
  | cons z zs =>
    have hz : z ∈ groupOf l k := by rw [hg]; simp
    simpa using groupOf_mem_rrtype l k z hz

theorem mem_differingKeys_iff (A B : List RR) (k : Nat × List Char) :
    k ∈ differingKeys A B ↔
      k ∈ A.map rrKey ∧ k ∈ B.map rrKey ∧ k.1 ≠ TypeOPT ∧ k.1 ≠ TypeRRSIG ∧
        groupOf A k ≠ groupOf B k := by
  unfold differingKeys
  rw [List.mem_filter, firstKeys_mem]
  constructor
  · rintro ⟨hA, hq⟩
    unfold addlQual at hq
    rw [groupOf_headD_rrtype A k hA, lookup_extract] at hq
    by_cases hopt : k.1 = TypeOPT
    · rw [if_pos (by simp [hopt])] at hq; cases hq
    · rw [if_neg (by simp [hopt])] at hq
      by_cases hsig : k.1 = TypeRRSIG
      · rw [if_pos (by simp [hsig])] at hq; cases hq
      · rw [if_neg (by simp [hsig])] at hq
        by_cases hB : k ∈ B.map rrKey
        · rw [if_pos hB] at hq
          exact ⟨hA, hB, hopt, hsig, by simpa using hq⟩
        · rw [if_neg hB] at hq; cases hq
  · rintro ⟨hA, hB, hopt, hsig, hne⟩
    refine ⟨hA, ?_⟩
    unfold addlQual
    rw [groupOf_headD_rrtype A k hA, lookup_extract, if_pos hB,
      if_neg (by simp [hopt]), if_neg (by simp [hsig])]
    simpa using hne

/-! ## C3: self-comparison is empty -/

def isSOAData : RData → Bool
  | .soa _ => true
  | .generic _ => false

/-- Records of a parsed message whose header type says SOA really carry
SOA data (the Go type assertion `rr.(*dns.SOA)` would otherwise
panic). -/
def MsgWF (m : Msg) : Prop :=
  ∀ rr ∈ m.answer ++ m.ns ++ m.extra,
    rr.header.rrtype = TypeSOA → isSOAData rr.rdata = true

instance (m : Msg) : Decidable (MsgWF m) := by
  unfold MsgWF
  infer_instance

theorem headerLines_self (x : Msg) : headerLines x x = [] := by
  simp [headerLines]

theorem compare_soa_self (s : Option RR) : compare_soa s s = [] := by
  cases s <;> simp [compare_soa]

/-- C3: `compare_resp x x` is the empty report for every parsed message
whose question does not trigger the skip policy. -/
theorem compare_resp_self_empty (x : Msg) (q : Question) (rest : List Question)
    (hq : x.question = q :: rest)
    (hskip : skip_name (toLowerStr q.name) = false)
    (hwf : MsgWF x) :
    compare_resp x x = .ok [] := by
  unfold compare_resp
  rw [hq]
  dsimp only
  rw [if_neg (by simp [hskip])]
  rw [headerLines_self, compare_section_self, compare_section_self,
    compare_additional_self]
  simp [sectionDiffLines, compare_soa_self]

/-- Witness for `compare_resp_self_empty` at a concrete NXDOMAIN-style
response carrying one answer record and a root SOA in the authority
section. -/
theorem compare_resp_self_empty_witness :
    compare_resp
        { response := true, opcode := 0, authoritative := true, truncated := false,
          recursionDesired := false, recursionAvailable := false,
          authenticatedData := false, checkingDisabled := false, rcode := 0,
          question := [⟨"example.com.".toList, 1⟩],
          answer := [⟨⟨"example.com.".toList, 1, 1, 300⟩, .generic "1.2.3.4".toList⟩],
          ns := [⟨⟨".".toList, 6, 1, 60⟩,
                  .soa ⟨"m.root.".toList, "nstld.".toList, 2024010101, 1800, 900, 604800, 86400⟩⟩],
          extra := [] }
        { response := true, opcode := 0, authoritative := true, truncated := false,
          recursionDesired := false, recursionAvailable := false,
          authenticatedData := false, checkingDisabled := false, rcode := 0,
          question := [⟨"example.com.".toList, 1⟩],
          answer := [⟨⟨"example.com.".toList, 1, 1, 300⟩, .generic "1.2.3.4".toList⟩],
          ns := [⟨⟨".".toList, 6, 1, 60⟩,
                  .soa ⟨"m.root.".toList, "nstld.".toList, 2024010101, 1800, 900, 604800, 86400⟩⟩],
          extra := [] } = .ok [] :=
  compare_resp_self_empty _ ⟨"example.com.".toList, 1⟩ [] rfl (by decide) (by decide)

/-! ## C8: swapping reference and shadow -/

/-- C8: swapping the reference and shadow inputs exchanges the
`reference_only` and `shadow_only` outputs of the Answer/Authority
comparison and of the Additional comparison (as multisets), and leaves
the set of differing RRset keys unchanged. -/
theorem compare_swap_symmetric (A B : List RR) :
    ((↑(compare_section A B).iana_only : Multiset RR) =
        ↑(compare_section B A).yeti_only) ∧
    ((↑(compare_section A B).yeti_only : Multiset RR) =
        ↑(compare_section B A).iana_only) ∧
    ((↑(compare_additional A B).1 : Multiset RR) = ↑(compare_additional B A).2) ∧
    ((↑(compare_additional A B).2 : Multiset RR) = ↑(compare_additional B A).1) ∧
    (∀ k, k ∈ differingKeys A B ↔ k ∈ differingKeys B A) := by
  have hdk : ∀ k, k ∈ differingKeys A B ↔ k ∈ differingKeys B A := by
    intro k
    rw [mem_differingKeys_iff, mem_differingKeys_iff]
    constructor
    · rintro ⟨h1, h2, h3, h4, h5⟩; exact ⟨h2, h1, h3, h4, Ne.symm h5⟩
    · rintro ⟨h1, h2, h3, h4, h5⟩; exact ⟨h2, h1, h3, h4, Ne.symm h5⟩
  have hperm : List.Perm (differingKeys A B) (differingKeys B A) :=
    (List.perm_ext_iff_of_nodup
      ((firstKeys_nodup _).filter _) ((firstKeys_nodup _).filter _)).mpr hdk
  have hlookA : (differingKeys B A).flatMap
      (fun k => (lookupKey k (extract_rrset A)).getD []) =
      (differingKeys B A).flatMap (groupOf A) := by
    rw [List.flatMap_def, List.flatMap_def]
    congr 1
    apply List.map_congr_left
    intro k hk
    rw [lookup_extract, if_pos ((mem_differingKeys_iff B A k).mp hk).2.1]
    rfl
  have hlookB : (differingKeys A B).flatMap
      (fun k => (lookupKey k (extract_rrset B)).getD []) =
      (differingKeys A B).flatMap (groupOf B) := by
    rw [List.flatMap_def, List.flatMap_def]
    congr 1
    apply List.map_congr_left
    intro k hk
    rw [lookup_extract, if_pos ((mem_differingKeys_iff A B k).mp hk).2.1]
    rfl
  refine ⟨?_, ?_, ?_, ?_, hdk⟩
  · rw [(compare_section_swap A B).1]
  · rw [(compare_section_swap A B).2]
  · rw [compare_additional_eq, compare_additional_eq]
    show (↑((differingKeys A B).flatMap (groupOf A)) : Multiset RR) = _
    rw [hlookA]
    calc (↑((differingKeys A B).flatMap (groupOf A)) : Multiset RR)
        = Multiset.bind (↑(differingKeys A B) : Multiset (Nat × List Char)) (fun k => (↑(groupOf A k) : Multiset RR)) :=
          (Multiset.coe_bind _ _).symm
      _ = Multiset.bind (↑(differingKeys B A) : Multiset (Nat × List Char)) (fun k => (↑(groupOf A k) : Multiset RR)) := by
          rw [Multiset.coe_eq_coe.mpr hperm]
      _ = ↑((differingKeys B A).flatMap (groupOf A)) := Multiset.coe_bind _ _
  · rw [compare_additional_eq, compare_additional_eq]
    show (↑((differingKeys A B).flatMap
        (fun k => (lookupKey k (extract_rrset B)).getD [])) : Multiset RR) = _
    rw [hlookB]
    calc (↑((differingKeys A B).flatMap (groupOf B)) : Multiset RR)
        = Multiset.bind (↑(differingKeys A B) : Multiset (Nat × List Char)) (fun k => (↑(groupOf B k) : Multiset RR)) :=
          (Multiset.coe_bind _ _).symm
      _ = Multiset.bind (↑(differingKeys B A) : Multiset (Nat × List Char)) (fun k => (↑(groupOf B k) : Multiset RR)) := by
          rw [Multiset.coe_eq_coe.mpr hperm]
      _ = ↑((differingKeys B A).flatMap (groupOf B)) := Multiset.coe_bind _ _

/-! ## C4: what `compare_resp` ignores -/

def notRRSIG (rr : RR) : Bool := !(rr.header.rrtype == TypeRRSIG)

def notOPT (rr : RR) : Bool := !(rr.header.rrtype == TypeOPT)

/-- Remove every RRSIG record from all three sections. -/
def stripRRSIG (m : Msg) : Msg :=
  { m with
    answer := m.answer.filter notRRSIG
    ns := m.ns.filter notRRSIG
    extra := m.extra.filter notRRSIG }

/-- Remove every OPT record from the Additional section. -/
def stripExtraOPT (m : Msg) : Msg := { m with extra := m.extra.filter notOPT }

theorem keptRR_and_notRRSIG (rr : RR) : (keptRR rr && notRRSIG rr) = keptRR rr := by
  unfold keptRR notRRSIG
  cases h : rr.header.rrtype == TypeRRSIG <;> simp [h]

theorem isRootSOA_and_notRRSIG (rr : RR) :
    (isRootSOA rr && notRRSIG rr) = isRootSOA rr := by
  by_cases h : rr.header.rrtype = TypeSOA
  · simp [isRootSOA, notRRSIG, h, TypeSOA, TypeRRSIG]
  · simp [isRootSOA, h]

/-- Dropping records that neither survive `keptRR` nor are root SOAs
does not change `compare_section` on sorted inputs. -/
theorem compare_section_strip (p : RR → Bool)
    (hkept : ∀ rr, (keptRR rr && p rr) = keptRR rr)
    (hroot : ∀ rr, (isRootSOA rr && p rr) = isRootSOA rr)
    (A B : List RR) :
    compare_section (sortRRs (A.filter p)) (sortRRs (B.filter p)) =
      compare_section (sortRRs A) (sortRRs B) := by
  have hk : ∀ l : List RR, (sortRRs (l.filter p)).filter keptRR =
      (sortRRs l).filter keptRR := by
    intro l
    rw [filter_sortRRs, filter_sortRRs, List.filter_filter]
    congr 1
    apply List.filter_congr
    intro a _
    exact hkept a
  have hr : ∀ l : List RR, (sortRRs (l.filter p)).filter isRootSOA =
      (sortRRs l).filter isRootSOA := by
    intro l
    rw [filter_sortRRs, filter_sortRRs, List.filter_filter]
    congr 1
    apply List.filter_congr
    intro a _
    exact hroot a
  unfold compare_section
  rw [hk A, hk B, hr A, hr B]

theorem filter_swap {α : Type} (a b : α → Bool) (l : List α) :
    (l.filter b).filter a = (l.filter a).filter b := by
  rw [List.filter_filter, List.filter_filter]
  apply List.filter_congr
  intro x _
  exact Bool.and_comm _ _

theorem firstKeys_filter (P : (Nat × List Char) → Bool)
    (ks : List (Nat × List Char)) :
    firstKeys (ks.filter P) = (firstKeys ks).filter P := by
  induction ks with
  | nil => simp [firstKeys]
  | cons k' ks' ih =>
    cases hP : P k' with
    | true =>
      rw [List.filter_cons, if_pos (by simp [hP])]
      rw [firstKeys, firstKeys, ih, List.filter_cons, if_pos (by simp [hP]),
        filter_swap]
    | false =>
      rw [List.filter_cons, if_neg (by simp [hP]), ih, firstKeys,
        List.filter_cons, if_neg (by simp [hP]), filter_swap]
      symm
      apply List.filter_eq_self.mpr
      intro x hx
      have hxP : P x = true := List.of_mem_filter hx
      simp only [decide_eq_true_eq]
      intro hxx
      rw [hxx] at hxP
      rw [hxP] at hP
      cases hP

theorem map_rrKey_filter (t : Nat) (p : RR → Bool)
    (hp : ∀ rr, p rr = !(rr.header.rrtype == t)) (A : List RR) :
    (A.filter p).map rrKey = (A.map rrKey).filter (fun k => !(k.1 == t)) := by
  induction A with
  | nil => rfl
  | cons rr A' ih =>
    rw [List.filter_cons, List.map_cons, List.filter_cons]
    have hcond : (!((rrKey rr).1 == t)) = p rr := (hp rr).symm
    cases hpr : p rr with
    | true =>
      rw [if_pos rfl, if_pos (hcond.trans hpr), List.map_cons, ih]
    | false =>
      rw [if_neg (by simp), if_neg (by simp [hcond.trans hpr]), ih]

theorem groupOf_filter (t : Nat) (p : RR → Bool)
    (hp : ∀ rr, p rr = !(rr.header.rrtype == t))
    (A : List RR) (k : Nat × List Char) (hk : ¬ k.1 = t) :
    groupOf (A.filter p) k = groupOf A k := by
  unfold groupOf
  congr 1
  congr 1
  rw [List.filter_filter]
  apply List.filter_congr
  intro rr _
  cases hq : decide (rrKey rr = k) with
  | false => simp
  | true =>
    have hqk : rrKey rr = k := of_decide_eq_true hq
    have hty : rr.header.rrtype = k.1 := by rw [← hqk]; rfl
    have hprr : p rr = true := by
      rw [hp rr, hty]
      simp [hk]
    simp [hprr]

theorem addlQual_congr (ym : List ((Nat × List Char) × List RR))
    (G G' : (Nat × List Char) → List RR) (k : Nat × List Char)
    (h : G' k = G k) : addlQual ym G' k = addlQual ym G k := by
  unfold addlQual
  rw [h]

/-- Removing records of one ignored type (OPT or RRSIG) from the
reference side leaves `compare_additional` unchanged. -/
theorem compare_additional_strip_left (t : Nat) (p : RR → Bool)
    (hp : ∀ rr, p rr = !(rr.header.rrtype == t))
    (ht : t = TypeOPT ∨ t = TypeRRSIG) (A B : List RR) :
    compare_additional (A.filter p) B = compare_additional A B := by
  have hPdk : ∀ k ∈ differingKeys A B, (!(k.1 == t)) = true := by
    intro k hk
    obtain ⟨_, _, hopt, hsig, _⟩ := (mem_differingKeys_iff A B k).mp hk
    rcases ht with rfl | rfl <;> simp [hopt, hsig]
  have hdk : differingKeys (A.filter p) B = differingKeys A B := by
    unfold differingKeys
    rw [map_rrKey_filter t p hp, firstKeys_filter]
    have hq : ((firstKeys (A.map rrKey)).filter (fun k => !(k.1 == t))).filter
        (addlQual (extract_rrset B) (groupOf (A.filter p))) =
        ((firstKeys (A.map rrKey)).filter (fun k => !(k.1 == t))).filter
        (addlQual (extract_rrset B) (groupOf A)) := by
      apply List.filter_congr
      intro k hk
      have hP : (!(k.1 == t)) = true := (List.mem_filter.mp hk).2
      have hkt : ¬ k.1 = t := by simpa using hP
      exact addlQual_congr _ _ _ k (groupOf_filter t p hp A k hkt)
    rw [hq, filter_swap]
    apply List.filter_eq_self.mpr
    exact hPdk
  rw [compare_additional_eq, compare_additional_eq, hdk]
  have hmap : (differingKeys A B).flatMap (groupOf (A.filter p)) =
      (differingKeys A B).flatMap (groupOf A) := by
    rw [List.flatMap_def, List.flatMap_def]
    congr 1
    apply List.map_congr_left
    intro k hk
    have hkt : ¬ k.1 = t := by simpa using hPdk k hk
    exact groupOf_filter t p hp A k hkt
  rw [hmap]

/-- Removing records of one ignored type (OPT or RRSIG) from the shadow
side leaves `compare_additional` unchanged. -/
theorem compare_additional_strip_right (t : Nat) (p : RR → Bool)
    (hp : ∀ rr, p rr = !(rr.header.rrtype == t))
    (ht : t = TypeOPT ∨ t = TypeRRSIG) (A B : List RR) :
    compare_additional A (B.filter p) = compare_additional A B := by
  have hlook : ∀ k : Nat × List Char, ¬ k.1 = t →
      lookupKey k (extract_rrset (B.filter p)) = lookupKey k (extract_rrset B) := by
    intro k hkt
    rw [lookup_extract, lookup_extract, map_rrKey_filter t p hp]
    by_cases hB : k ∈ B.map rrKey
    · rw [if_pos (List.mem_filter.mpr ⟨hB, by simpa using hkt⟩), if_pos hB,
        groupOf_filter t p hp B k hkt]
    · rw [if_neg (fun hc => hB (List.mem_filter.mp hc).1), if_neg hB]
  have hdk : differingKeys A (B.filter p) = differingKeys A B := by
    unfold differingKeys
    apply List.filter_congr
    intro k hk
    have hkA : k ∈ A.map rrKey := (firstKeys_mem _ _).mp hk
    have hhead := groupOf_headD_rrtype A k hkA
    by_cases hkt : k.1 = t
    · unfold addlQual
      rw [hhead, hkt]
      rcases ht with rfl | rfl
      · simp [TypeOPT]
      · simp [TypeOPT, TypeRRSIG]
    · unfold addlQual
      rw [hlook k hkt]
  rw [compare_additional_eq, compare_additional_eq, hdk]
  have hmap : (differingKeys A B).flatMap
      (fun k => (lookupKey k (extract_rrset (B.filter p))).getD []) =
      (differingKeys A B).flatMap
      (fun k => (lookupKey k (extract_rrset B)).getD []) := by
    rw [List.flatMap_def, List.flatMap_def]
    congr 1
    apply List.map_congr_left
    intro k hk
    obtain ⟨_, _, hopt, hsig, _⟩ := (mem_differingKeys_iff A B k).mp hk
    have hkt : ¬ k.1 = t := by rcases ht with rfl | rfl <;> assumption
    rw [hlook k hkt]
  rw [hmap]

/-! ## Canonicalising the root SOA's MNAME and RNAME -/

def canonRData : RData → RData
  | .soa d => .soa ⟨[], [], d.serial, d.refresh, d.retry_, d.expire, d.minttl⟩
  | .generic t => .generic t

/-- Replace the MNAME and RNAME of a root SOA by fixed values. -/
def canonRR (rr : RR) : RR :=
  if isRootSOA rr then ⟨rr.header, canonRData rr.rdata⟩ else rr

def canonRootSOA (m : Msg) : Msg :=
  { m with
    answer := m.answer.map canonRR
    ns := m.ns.map canonRR }

theorem canonRR_header (rr : RR) : (canonRR rr).header = rr.header := by
  unfold canonRR
  split <;> rfl

theorem isRootSOA_canonRR (rr : RR) : isRootSOA (canonRR rr) = isRootSOA rr := by
  unfold isRootSOA
  rw [canonRR_header]

theorem keptRR_canonRR (rr : RR) : keptRR (canonRR rr) = keptRR rr := by
  unfold keptRR
  rw [canonRR_header, isRootSOA_canonRR]

theorem canonRR_of_kept (rr : RR) (h : keptRR rr = true) : canonRR rr = rr := by
  unfold canonRR
  rw [if_neg]
  intro hroot
  unfold keptRR at h
  rw [hroot] at h
  simp at h

theorem filter_keptRR_map_canon (l : List RR) :
    (l.map canonRR).filter keptRR = l.filter keptRR := by
  induction l with
  | nil => rfl
  | cons rr l' ih =>
    rw [List.map_cons, List.filter_cons, List.filter_cons, keptRR_canonRR]
    cases h : keptRR rr with
    | true => rw [if_pos rfl, if_pos rfl, canonRR_of_kept rr h, ih]
    | false => rw [if_neg (by simp), if_neg (by simp), ih]

theorem filter_isRootSOA_map_canon (l : List RR) :
    (l.map canonRR).filter isRootSOA = (l.filter isRootSOA).map canonRR := by
  induction l with
  | nil => rfl
  | cons rr l' ih =>
    rw [List.map_cons, List.filter_cons, List.filter_cons, isRootSOA_canonRR]
    cases h : isRootSOA rr with
    | true => rw [if_pos rfl, if_pos rfl, List.map_cons, ih]
    | false => rw [if_neg (by simp), if_neg (by simp), ih]

theorem soaFields_canon_num (rr : RR) :
    (soaFields (canonRR rr)).serial = (soaFields rr).serial ∧
    (soaFields (canonRR rr)).refresh = (soaFields rr).refresh ∧
    (soaFields (canonRR rr)).retry_ = (soaFields rr).retry_ ∧
    (soaFields (canonRR rr)).expire = (soaFields rr).expire ∧
    (soaFields (canonRR rr)).minttl = (soaFields rr).minttl := by
  unfold canonRR
  split
  · cases hd : rr.rdata <;> simp [soaFields, canonRData, hd]
  · simp

theorem compare_soa_canon (i y : RR) :
    compare_soa (some (canonRR i)) (some (canonRR y)) = compare_soa (some i) (some y) := by
  obtain ⟨hi1, hi2, hi3, hi4, hi5⟩ := soaFields_canon_num i
  obtain ⟨hy1, hy2, hy3, hy4, hy5⟩ := soaFields_canon_num y
  unfold compare_soa
  dsimp only
  rw [hi1, hi2, hi3, hi4, hi5, hy1, hy2, hy3, hy4, hy5]

theorem compare_soa_map_canon (isoa ysoa : Option RR)
    (hpar : isoa = none ↔ ysoa = none) :
    compare_soa (isoa.map canonRR) (ysoa.map canonRR) = compare_soa isoa ysoa := by
  cases isoa with
  | none =>
    cases ysoa with
    | none => rfl
    | some yv => exact absurd (hpar.mp rfl) (by simp)
  | some iv =>
    cases ysoa with
    | none => exact absurd (hpar.mpr rfl) (by simp)
    | some yv => exact compare_soa_canon iv yv

theorem sortRRs_length (l : List RR) : (sortRRs l).length = l.length := by
  induction l with
  | nil => rfl
  | cons x xs ih =>
    show (orderedInsertRR x (sortRRs xs)).length = xs.length + 1
    rw [← ih]
    generalize sortRRs xs = m
    induction m with
    | nil => rfl
    | cons y ys ihm =>
      unfold orderedInsertRR
      by_cases h : rrLE x y = true
      · rw [if_pos h]; rfl
      · rw [if_neg h]
        simpa using ihm

theorem sortRRs_eq_nil_iff (l : List RR) : sortRRs l = [] ↔ l = [] := by
  constructor
  · intro h
    have := sortRRs_length l
    rw [h] at this
    exact List.length_eq_zero.mp this.symm
  · intro h
    rw [h]
    rfl

theorem rootSOA_extract_canon (l : List RR)
    (hlen : (l.filter isRootSOA).length ≤ 1) :
    ((sortRRs (l.map canonRR)).filter isRootSOA).getLast? =
      (((sortRRs l).filter isRootSOA).getLast?).map canonRR := by
  rw [filter_sortRRs, filter_sortRRs, filter_isRootSOA_map_canon]
  cases hf : l.filter isRootSOA with
  | nil => simp [sortRRs]
  | cons s rest =>
    cases rest with
    | nil => simp [sortRRs, orderedInsertRR]
    | cons s2 r2 =>
      rw [hf] at hlen
      simp at hlen

theorem compare_section_root_proj (A B : List RR) :
    (compare_section A B).iana_root_soa = (A.filter isRootSOA).getLast? ∧
    (compare_section A B).yeti_root_soa = (B.filter isRootSOA).getLast? :=
  ⟨rfl, rfl⟩

/-- With at most one root SOA on each side, canonicalising MNAME/RNAME
canonicalises the extracted SOAs and leaves the matching untouched. -/
theorem compare_section_canon (A B : List RR)
    (hA : (A.filter isRootSOA).length ≤ 1) (hB : (B.filter isRootSOA).length ≤ 1) :
    compare_section (sortRRs (A.map canonRR)) (sortRRs (B.map canonRR)) =
      ⟨(compare_section (sortRRs A) (sortRRs B)).iana_only,
       (compare_section (sortRRs A) (sortRRs B)).yeti_only,
       ((compare_section (sortRRs A) (sortRRs B)).iana_root_soa).map canonRR,
       ((compare_section (sortRRs A) (sortRRs B)).yeti_root_soa).map canonRR⟩ := by
  have hkA : (sortRRs (A.map canonRR)).filter keptRR = (sortRRs A).filter keptRR := by
    rw [filter_sortRRs, filter_sortRRs, filter_keptRR_map_canon]
  have hkB : (sortRRs (B.map canonRR)).filter keptRR = (sortRRs B).filter keptRR := by
    rw [filter_sortRRs, filter_sortRRs, filter_keptRR_map_canon]
  unfold compare_section
  rw [hkA, hkB, rootSOA_extract_canon A hA, rootSOA_extract_canon B hB]

/-! ## The C4 invariance lemmas for `compare_resp` -/

theorem compare_resp_stripRRSIG (x y : Msg) :
    compare_resp x y = compare_resp (stripRRSIG x) (stripRRSIG y) := by
  have hqx : (stripRRSIG x).question = x.question := rfl
  have hh : headerLines (stripRRSIG x) (stripRRSIG y) = headerLines x y := rfl
  have hax : (stripRRSIG x).answer = x.answer.filter notRRSIG := rfl
  have hay : (stripRRSIG y).answer = y.answer.filter notRRSIG := rfl
  have hnx : (stripRRSIG x).ns = x.ns.filter notRRSIG := rfl
  have hny : (stripRRSIG y).ns = y.ns.filter notRRSIG := rfl
  have hex : (stripRRSIG x).extra = x.extra.filter notRRSIG := rfl
  have hey : (stripRRSIG y).extra = y.extra.filter notRRSIG := rfl
  unfold compare_resp
  rw [hqx, hh, hax, hay, hnx, hny, hex, hey]
  cases hq : x.question with
  | nil => rfl
  | cons q rest =>
    dsimp only
    by_cases hskip : skip_name (toLowerStr q.name) = true
    · rw [if_pos hskip, if_pos hskip]
    · rw [if_neg hskip, if_neg hskip]
      rw [compare_section_strip notRRSIG keptRR_and_notRRSIG isRootSOA_and_notRRSIG
          x.answer y.answer,
        compare_section_strip notRRSIG keptRR_and_notRRSIG isRootSOA_and_notRRSIG
          x.ns y.ns,
        ← filter_sortRRs notRRSIG x.extra, ← filter_sortRRs notRRSIG y.extra,
        compare_additional_strip_left TypeRRSIG notRRSIG (fun _ => rfl) (Or.inr rfl),
        compare_additional_strip_right TypeRRSIG notRRSIG (fun _ => rfl) (Or.inr rfl)]

theorem compare_resp_stripExtraOPT (x y : Msg) :
    compare_resp x y = compare_resp (stripExtraOPT x) (stripExtraOPT y) := by
  have hqx : (stripExtraOPT x).question = x.question := rfl
  have hh : headerLines (stripExtraOPT x) (stripExtraOPT y) = headerLines x y := rfl
  have hax : (stripExtraOPT x).answer = x.answer := rfl
  have hay : (stripExtraOPT y).answer = y.answer := rfl
  have hnx : (stripExtraOPT x).ns = x.ns := rfl
  have hny : (stripExtraOPT y).ns = y.ns := rfl
  have hex : (stripExtraOPT x).extra = x.extra.filter notOPT := rfl
  have hey : (stripExtraOPT y).extra = y.extra.filter notOPT := rfl
  unfold compare_resp
  rw [hqx, hh, hax, hay, hnx, hny, hex, hey]
  cases hq : x.question with
  | nil => rfl
  | cons q rest =>
    dsimp only
    by_cases hskip : skip_name (toLowerStr q.name) = true
    · rw [if_pos hskip, if_pos hskip]
    · rw [if_neg hskip, if_neg hskip]
      rw [← filter_sortRRs notOPT x.extra, ← filter_sortRRs notOPT y.extra,
        compare_additional_strip_left TypeOPT notOPT (fun _ => rfl) (Or.inl rfl),
        compare_additional_strip_right TypeOPT notOPT (fun _ => rfl) (Or.inl rfl)]

theorem compare_resp_canonRootSOA (x y : Msg)
    (ha1 : (x.answer.filter isRootSOA).length ≤ 1)
    (ha2 : (y.answer.filter isRootSOA).length ≤ 1)
    (hn1 : (x.ns.filter isRootSOA).length ≤ 1)
    (hn2 : (y.ns.filter isRootSOA).length ≤ 1)
    (hpa : (x.answer.filter isRootSOA = []) ↔ (y.answer.filter isRootSOA = []))
    (hpn : (x.ns.filter isRootSOA = []) ↔ (y.ns.filter isRootSOA = [])) :
    compare_resp x y = compare_resp (canonRootSOA x) (canonRootSOA y) := by
  have hqx : (canonRootSOA x).question = x.question := rfl
  have hh : headerLines (canonRootSOA x) (canonRootSOA y) = headerLines x y := rfl
  have hax : (canonRootSOA x).answer = x.answer.map canonRR := rfl
  have hay : (canonRootSOA y).answer = y.answer.map canonRR := rfl
  have hnx : (canonRootSOA x).ns = x.ns.map canonRR := rfl
  have hny : (canonRootSOA y).ns = y.ns.map canonRR := rfl
  have hexx : (canonRootSOA x).extra = x.extra := rfl
  have hey : (canonRootSOA y).extra = y.extra := rfl
  have hparA : ((compare_section (sortRRs x.answer) (sortRRs y.answer)).iana_root_soa
      = none) ↔
      ((compare_section (sortRRs x.answer) (sortRRs y.answer)).yeti_root_soa = none) := by
    rw [(compare_section_root_proj _ _).1, (compare_section_root_proj _ _).2]
    rw [filter_sortRRs, filter_sortRRs, List.getLast?_eq_none_iff,
      List.getLast?_eq_none_iff, sortRRs_eq_nil_iff, sortRRs_eq_nil_iff]
    exact hpa
  have hparN : ((compare_section (sortRRs x.ns) (sortRRs y.ns)).iana_root_soa
      = none) ↔
      ((compare_section (sortRRs x.ns) (sortRRs y.ns)).yeti_root_soa = none) := by
    rw [(compare_section_root_proj _ _).1, (compare_section_root_proj _ _).2]
    rw [filter_sortRRs, filter_sortRRs, List.getLast?_eq_none_iff,
      List.getLast?_eq_none_iff, sortRRs_eq_nil_iff, sortRRs_eq_nil_iff]
    exact hpn
  unfold compare_resp
  rw [hqx, hh, hax, hay, hnx, hny, hexx, hey]
  cases hq : x.question with
  | nil => rfl
  | cons q rest =>
    dsimp only
    by_cases hskip : skip_name (toLowerStr q.name) = true
    · rw [if_pos hskip, if_pos hskip]
    · rw [if_neg hskip, if_neg hskip]
      rw [compare_section_canon x.answer y.answer ha1 ha2,
        compare_section_canon x.ns y.ns hn1 hn2]
      dsimp only
      rw [compare_soa_map_canon _ _ hparA, compare_soa_map_canon _ _ hparN]

theorem compare_soa_empty_iff (i y : RR) :
    compare_soa (some i) (some y) = [] ↔
      ((soaFields i).serial = (soaFields y).serial ∧
       (soaFields i).refresh = (soaFields y).refresh ∧
       (soaFields i).retry_ = (soaFields y).retry_ ∧
       (soaFields i).expire = (soaFields y).expire ∧
       (soaFields i).minttl = (soaFields y).minttl) := by
  unfold compare_soa
  dsimp only
  by_cases h1 : (soaFields i).serial = (soaFields y).serial <;>
    by_cases h2 : (soaFields i).refresh = (soaFields y).refresh <;>
    by_cases h3 : (soaFields i).retry_ = (soaFields y).retry_ <;>
    by_cases h4 : (soaFields i).expire = (soaFields y).expire <;>
    by_cases h5 : (soaFields i).minttl = (soaFields y).minttl <;>
    simp [h1, h2, h3, h4, h5]

/-! ## C4: the claim and its correction -/

/-- C4 counterexample: the report is not invariant under every
difference confined to OPT records — an OPT record in the Answer
section is compared like any other record — and not invariant under
every difference confined to the root SOA's MNAME: when only one side
carries the root SOA, the emitted line prints that SOA, MNAME
included. -/
theorem compare_resp_ignores_counterexample :
    (compare_resp
        { response := true, opcode := 0, authoritative := true, truncated := false,
          recursionDesired := false, recursionAvailable := false,
          authenticatedData := false, checkingDisabled := false, rcode := 0,
          question := [⟨"example.com.".toList, 1⟩],
          answer := [⟨⟨"example.com.".toList, 41, 1, 0⟩, .generic "opt".toList⟩],
          ns := [], extra := [] }
        { response := true, opcode := 0, authoritative := true, truncated := false,
          recursionDesired := false, recursionAvailable := false,
          authenticatedData := false, checkingDisabled := false, rcode := 0,
          question := [⟨"example.com.".toList, 1⟩],
          answer := [], ns := [], extra := [] } ≠
      compare_resp
        { response := true, opcode := 0, authoritative := true, truncated := false,
          recursionDesired := false, recursionAvailable := false,
          authenticatedData := false, checkingDisabled := false, rcode := 0,
          question := [⟨"example.com.".toList, 1⟩],
          answer := [], ns := [], extra := [] }
        { response := true, opcode := 0, authoritative := true, truncated := false,
          recursionDesired := false, recursionAvailable := false,
          authenticatedData := false, checkingDisabled := false, rcode := 0,
          question := [⟨"example.com.".toList, 1⟩],
          answer := [], ns := [], extra := [] })
    ∧ (compare_resp
        { response := true, opcode := 0, authoritative := true, truncated := false,
          recursionDesired := false, recursionAvailable := false,
          authenticatedData := false, checkingDisabled := false, rcode := 0,
          question := [⟨"example.com.".toList, 1⟩],
          answer := [],
          ns := [⟨⟨".".toList, 6, 1, 60⟩, .soa ⟨"a.".toList, "m.".toList, 1, 2, 3, 4, 5⟩⟩],
          extra := [] }
        { response := true, opcode := 0, authoritative := true, truncated := false,
          recursionDesired := false, recursionAvailable := false,
          authenticatedData := false, checkingDisabled := false, rcode := 0,
          question := [⟨"example.com.".toList, 1⟩],
          answer := [], ns := [], extra := [] } ≠
      compare_resp
        { response := true, opcode := 0, authoritative := true, truncated := false,
          recursionDesired := false, recursionAvailable := false,
          authenticatedData := false, checkingDisabled := false, rcode := 0,
          question := [⟨"example.com.".toList, 1⟩],
          answer := [],
          ns := [⟨⟨".".toList, 6, 1, 60⟩, .soa ⟨"b.".toList, "m.".toList, 1, 2, 3, 4, 5⟩⟩],
          extra := [] }
        { response := true, opcode := 0, authoritative := true, truncated := false,
          recursionDesired := false, recursionAvailable := false,
          authenticatedData := false, checkingDisabled := false, rcode := 0,
          question := [⟨"example.com.".toList, 1⟩],
          answer := [], ns := [], extra := [] }) := by
  constructor <;> decide

/-- C4 amended: the report of `compare_resp` is unchanged by adding or
removing RRSIG records in any section on either side; by differences
confined to OPT records in the Additional section; and — provided each
Answer/Authority section holds at most one root SOA and the root SOA is
present on both sides or neither — by differences confined to the
MNAME/RNAME of the root SOA.  When both sides carry the root SOA, its
comparison contributes lines exactly for differing Serial, Refresh,
Retry, Expire and Minttl fields. -/
theorem compare_resp_ignores_amended :
    (∀ x y : Msg, compare_resp x y = compare_resp (stripRRSIG x) (stripRRSIG y)) ∧
    (∀ x y : Msg, compare_resp x y = compare_resp (stripExtraOPT x) (stripExtraOPT y)) ∧
    (∀ x y : Msg,
      (x.answer.filter isRootSOA).length ≤ 1 →
      (y.answer.filter isRootSOA).length ≤ 1 →
      (x.ns.filter isRootSOA).length ≤ 1 →
      (y.ns.filter isRootSOA).length ≤ 1 →
      ((x.answer.filter isRootSOA = []) ↔ (y.answer.filter isRootSOA = [])) →
      ((x.ns.filter isRootSOA = []) ↔ (y.ns.filter isRootSOA = [])) →
      compare_resp x y = compare_resp (canonRootSOA x) (canonRootSOA y)) ∧
    (∀ i y : RR, compare_soa (some i) (some y) = [] ↔
      ((soaFields i).serial = (soaFields y).serial ∧
       (soaFields i).refresh = (soaFields y).refresh ∧
       (soaFields i).retry_ = (soaFields y).retry_ ∧
       (soaFields i).expire = (soaFields y).expire ∧
       (soaFields i).minttl = (soaFields y).minttl)) :=
  ⟨compare_resp_stripRRSIG, compare_resp_stripExtraOPT,
   fun x y ha1 ha2 hn1 hn2 hpa hpn =>
     compare_resp_canonRootSOA x y ha1 ha2 hn1 hn2 hpa hpn,
   compare_soa_empty_iff⟩

/-- Witness for `compare_resp_ignores_amended`: the MNAME/RNAME
invariance applied at concrete responses that both carry a root SOA. -/
theorem compare_resp_ignores_amended_witness :
    compare_resp
        { response := true, opcode := 0, authoritative := true, truncated := false,
          recursionDesired := false, recursionAvailable := false,
          authenticatedData := false, checkingDisabled := false, rcode := 0,
          question := [⟨"example.com.".toList, 1⟩],
          answer := [],
          ns := [⟨⟨".".toList, 6, 1, 60⟩, .soa ⟨"a.".toList, "m.".toList, 1, 2, 3, 4, 5⟩⟩],
          extra := [] }
        { response := true, opcode := 0, authoritative := true, truncated := false,
          recursionDesired := false, recursionAvailable := false,
          authenticatedData := false, checkingDisabled := false, rcode := 0,
          question := [⟨"example.com.".toList, 1⟩],
          answer := [],
          ns := [⟨⟨".".toList, 6, 1, 60⟩, .soa ⟨"c.".toList, "n.".toList, 1, 2, 3, 4, 7⟩⟩],
          extra := [] } =
      compare_resp
        (canonRootSOA
          { response := true, opcode := 0, authoritative := true, truncated := false,
            recursionDesired := false, recursionAvailable := false,
            authenticatedData := false, checkingDisabled := false, rcode := 0,
            question := [⟨"example.com.".toList, 1⟩],
            answer := [],
            ns := [⟨⟨".".toList, 6, 1, 60⟩, .soa ⟨"a.".toList, "m.".toList, 1, 2, 3, 4, 5⟩⟩],
            extra := [] })
        (canonRootSOA
          { response := true, opcode := 0, authoritative := true, truncated := false,
            recursionDesired := false, recursionAvailable := false,
            authenticatedData := false, checkingDisabled := false, rcode := 0,
            question := [⟨"example.com.".toList, 1⟩],
            answer := [],
            ns := [⟨⟨".".toList, 6, 1, 60⟩, .soa ⟨"c.".toList, "n.".toList, 1, 2, 3, 4, 7⟩⟩],
            extra := [] }) :=
  compare_resp_ignores_amended.2.2.1 _ _
    (by decide) (by decide) (by decide) (by decide) (by decide) (by decide)

end Ymmv
